import Mathlib

/-!
Verification of the fieldtracker persistence core (`src/fieldtracker/model`).

The definitions below are a shallow embedding of the Python sources:
`where.py` (criteria compiler), `entity.py` (field specs, entity state and
statement builder) and `db.py` (entity store and commit protocol).  Python
values appearing in criteria structures are modelled by `PyVal`; Python
exceptions are modelled by `PyErr` through `Except`.
-/

namespace FieldTracker

/-- Python exception surrogate: the exception classes raised by the model. -/
inductive PyErr where
  | typeError (msg : String)
  | valueError (msg : String)
  | keyError (msg : String)
  | attributeError (msg : String)
  | nameError (msg : String)
deriving DecidableEq, Repr

/-- Python values that can appear in a criteria structure handed to
`compile_where` (`where.py`): scalars, lists and dicts.  Python dicts
iterate in insertion order, so they are modelled by association lists. -/
inductive PyVal where
  | pynone
  | int (n : Int)
  | str (s : String)
  | list (xs : List PyVal)
  | dict (kvs : List (String × PyVal))

/-- Python `sep.join(parts)`. -/
def joinSep (sep : String) : List String → String
  | [] => ""
  | [x] => x
  | x :: xs => x ++ sep ++ joinSep sep xs

/-- The comparison operators accepted by `_compile_op` with exactly one
argument (`where.py` line 154). -/
def binaryOps : List String :=
  ["=", "!=", "<", "<=", ">", ">=", "LIKE", "NOT LIKE"]

mutual

/-- `where.py` `_compile_op`: compile a single non-negated WHERE-clause
fragment for a single field.  A list criterion starts with its operator;
`AND`/`OR` recurse into the remaining elements, `IN`/`NOT IN` take variadic
scalar arguments, the binary comparison operators take exactly one argument.
A scalar criterion is implicit equality; a dict criterion is a type error. -/
def _compile_op (field : String) : PyVal → Except PyErr (String × List PyVal)
  | .list [] => .error (.valueError "Criteria array requires at least one element")
  | .list (op :: op_args) =>
      match op with
      | .str s =>
        if s = "AND" ∨ s = "OR" then do
          let parts ← _compile_op_each field op_args
          .ok (joinSep (" " ++ s ++ " ") (parts.map (fun p => "(" ++ p.1 ++ ")")),
               (parts.map Prod.snd).flatten)
        else if s = "IN" ∨ s = "NOT IN" then
          if op_args.length < 1 then
            .error (.valueError "operator requires at least one argument")
          else
            .ok (field ++ " " ++ s ++ " (" ++ joinSep ", " (op_args.map (fun _ => "?")) ++ ")",
                 op_args)
        else if s ∈ binaryOps then
          match op_args with
          | [a] => .ok (field ++ " " ++ s ++ " ?", [a])
          | _ => .error (.valueError "operator requires exactly one argument")
        else
          .error (.valueError "Unrecognised operator")
      | _ => .error (.valueError "Unrecognised operator")
  | .dict _ => .error (.typeError "Criteria for field must be a list or scalar")
  | c => .ok (field ++ " = ?", [c])

/-- The accumulation loop of the `AND`/`OR` branch of `_compile_op`:
compile each nested criterion in order, aborting at the first failure. -/
def _compile_op_each (field : String) : List PyVal → Except PyErr (List (String × List PyVal))
  | [] => .ok []
  | c :: cs => do
      let r ← _compile_op field c
      let rs ← _compile_op_each field cs
      .ok (r :: rs)

end

/-- Python `field.startswith("!")`: the first character is `!`. -/
def startsBang (s : String) : Bool :=
  match s.data with
  | [] => false
  | c :: _ => c = '!'

/-- Python `field[1:]`: drop the first character. -/
def pytail (s : String) : String := String.mk (s.data.drop 1)

/-- `where.py` `compile_op`: compile a fragment for a single field, honouring
a leading `!` on the field name as negation. -/
def compile_op (field : String) (criteria : PyVal) : Except PyErr (String × List PyVal) := do
  let negate := startsBang field
  let field2 := if negate then pytail field else field
  let (sql, args) ← _compile_op field2 criteria
  if negate then .ok ("NOT (" ++ sql ++ ")", args) else .ok (sql, args)

/-- The accumulation loop of the dict case of `compile_where`: compile the
fragment of every field in insertion order, aborting at the first failure. -/
def compile_where_dict : List (String × PyVal) → Except PyErr (List (String × List PyVal))
  | [] => .ok []
  | (f, c) :: kvs => do
      let r ← compile_op f c
      let rs ← compile_where_dict kvs
      .ok (r :: rs)

mutual

/-- `where.py` `compile_where`: a list of criteria is OR-combined, a dict of
field criteria is AND-combined, anything else is a type error. -/
def compile_where : PyVal → Except PyErr (String × List PyVal)
  | .list criteria => do
      let parts ← compile_where_each criteria
      .ok (joinSep " OR " (parts.map (fun p => "(" ++ p.1 ++ ")")),
           (parts.map Prod.snd).flatten)
  | .dict kvs => do
      let parts ← compile_where_dict kvs
      .ok (joinSep " AND " (parts.map (fun p => "(" ++ p.1 ++ ")")),
           (parts.map Prod.snd).flatten)
  | _ => .error (.typeError "Expected a dict or list of criteria items")

/-- The accumulation loop of the list case of `compile_where`. -/
def compile_where_each : List PyVal → Except PyErr (List (String × List PyVal))
  | [] => .ok []
  | c :: cs => do
      let r ← compile_where c
      let rs ← compile_where_each cs
      .ok (r :: rs)

end

/-- Number of `?` parameter placeholders in a SQL fragment. -/
def qcount (s : String) : Nat := s.data.count '?'

example : compile_where (.dict [("a", .list [.str "IN", .int 1, .int 2, .int 3])])
    = .ok ("(a IN (?, ?, ?))", [.int 1, .int 2, .int 3]) := by
  simp only [compile_where, compile_where_dict, compile_op, _compile_op, joinSep,
    binaryOps, bind, Except.bind]
  rfl

example : compile_where (.dict [("a", .int 5), ("b", .str "x")])
    = .ok ("(a = ?) AND (b = ?)", [.int 5, .str "x"]) := by
  simp only [compile_where, compile_where_dict, compile_op, _compile_op, joinSep,
    binaryOps, bind, Except.bind]
  rfl

example : compile_where (.list [.dict [("a", .int 1)], .dict [("a", .int 2)]])
    = .ok ("((a = ?)) OR ((a = ?))", [.int 1, .int 2]) := by
  simp only [compile_where, compile_where_each, compile_where_dict, compile_op,
    _compile_op, joinSep, binaryOps, bind, Except.bind]
  rfl

example : compile_op "!myfield" (.list [.str "AND", .list [.str ">", .int 10], .list [.str "<", .int 20]])
    = .ok ("NOT ((myfield > ?) AND (myfield < ?))", [.int 10, .int 20]) := by
  simp only [compile_op, _compile_op, _compile_op_each, joinSep, binaryOps, bind,
    Except.bind]
  rfl

/-! ### Placeholder/argument correspondence of the criteria compiler (C2) -/

/-- A compiled-SQL template fragment: literal text or one argument hole.
Rendering a hole produces exactly one `?` placeholder, so a template fixes
which argument belongs to which placeholder, in left-to-right order. -/
inductive Frag where
  | lit (s : String)
  | hole (v : PyVal)

/-- Render a template to its SQL text: each hole becomes one `?`. -/
def renderFrags : List Frag → String
  | [] => ""
  | .lit s :: fs => s ++ renderFrags fs
  | .hole _ :: fs => "?" ++ renderFrags fs

/-- The arguments of a template, in placeholder order. -/
def fragArgs : List Frag → List PyVal
  | [] => []
  | .lit _ :: fs => fragArgs fs
  | .hole v :: fs => v :: fragArgs fs

/-- No literal piece of the template contains a stray `?`. -/
def litsNoQ (fr : List Frag) : Prop := ∀ s, Frag.lit s ∈ fr → qcount s = 0

/-- `fr` is a template for the compiled pair `p` (SQL text and argument
tuple): rendering `fr` gives the text, its holes give the arguments in
placeholder order, and none of its literal pieces contains a `?`. -/
def FragOf (p : String × List PyVal) (fr : List Frag) : Prop :=
  renderFrags fr = p.1 ∧ fragArgs fr = p.2 ∧ litsNoQ fr

/-- Template analogue of `joinSep`. -/
def fragJoin (sep : String) : List (List Frag) → List Frag
  | [] => []
  | [x] => x
  | x :: xs => x ++ [.lit sep] ++ fragJoin sep xs

theorem qcount_append (a b : String) : qcount (a ++ b) = qcount a + qcount b := by
  simp [qcount, String.data_append, List.count_append]

theorem renderFrags_append (a b : List Frag) :
    renderFrags (a ++ b) = renderFrags a ++ renderFrags b := by
  induction a with
  | nil => simp [renderFrags, String.empty_append]
  | cons f fs ih => cases f <;> simp [renderFrags, ih, String.append_assoc]

theorem fragArgs_append (a b : List Frag) :
    fragArgs (a ++ b) = fragArgs a ++ fragArgs b := by
  induction a with
  | nil => simp [fragArgs]
  | cons f fs ih => cases f <;> simp [fragArgs, ih]

theorem litsNoQ_append {a b : List Frag} (ha : litsNoQ a) (hb : litsNoQ b) :
    litsNoQ (a ++ b) := by
  intro s hs
  rcases List.mem_append.mp hs with h | h
  · exact ha s h
  · exact hb s h

theorem litsNoQ_cons {f : Frag} {fs : List Frag} (hf : ∀ s, f = Frag.lit s → qcount s = 0)
    (hfs : litsNoQ fs) : litsNoQ (f :: fs) := by
  intro s hs
  rcases List.mem_cons.mp hs with h | h
  · exact hf s h.symm
  · exact hfs s h

theorem litsNoQ_nil : litsNoQ [] := by
  intro s hs
  cases hs

/-- On a template with clean literals, the rendered text has exactly one `?`
per argument. -/
theorem qcount_renderFrags {fr : List Frag} (h : litsNoQ fr) :
    qcount (renderFrags fr) = (fragArgs fr).length := by
  induction fr with
  | nil => simp [renderFrags, fragArgs, qcount]
  | cons f fs ih =>
    have hfs : litsNoQ fs := fun t ht => h t (List.mem_cons_of_mem _ ht)
    cases f with
    | lit s =>
      have hs : qcount s = 0 := h s (List.mem_cons_self _ _)
      simp [renderFrags, fragArgs, qcount_append, hs, ih hfs]
    | hole v =>
      have h1 : qcount "?" = 1 := rfl
      simp [renderFrags, fragArgs, qcount_append, h1, ih hfs, Nat.add_comm]

theorem renderFrags_fragJoin (sep : String) :
    ∀ ls : List (List Frag), renderFrags (fragJoin sep ls) = joinSep sep (ls.map renderFrags)
  | [] => by simp [fragJoin, joinSep, renderFrags]
  | [x] => by simp [fragJoin, joinSep]
  | x :: y :: xs => by
    have ih := renderFrags_fragJoin sep (y :: xs)
    simp only [fragJoin, joinSep, List.map_cons, renderFrags_append, ih]
    simp [renderFrags, String.append_assoc, String.append_empty]

theorem fragArgs_fragJoin (sep : String) :
    ∀ ls : List (List Frag), fragArgs (fragJoin sep ls) = (ls.map fragArgs).flatten
  | [] => by simp [fragJoin, fragArgs]
  | [x] => by simp [fragJoin]
  | x :: y :: xs => by
    have ih := fragArgs_fragJoin sep (y :: xs)
    simp only [fragJoin, List.map_cons, fragArgs_append, ih]
    simp [fragArgs]

theorem litsNoQ_fragJoin {sep : String} (hsep : qcount sep = 0) :
    ∀ ls : List (List Frag), (∀ l ∈ ls, litsNoQ l) → litsNoQ (fragJoin sep ls)
  | [], _ => litsNoQ_nil
  | [x], h => by
    simpa [fragJoin] using h x (by simp)
  | x :: y :: xs, h => by
    have ih := litsNoQ_fragJoin hsep (y :: xs) (fun l hl => h l (List.mem_cons_of_mem _ hl))
    have hx := h x (by simp)
    simp only [fragJoin]
    exact litsNoQ_append (litsNoQ_append hx
      (litsNoQ_cons (by intro s hs; cases hs; exact hsep) litsNoQ_nil)) ih

theorem forall2_map_eq {α β γ : Type _} {R : α → β → Prop} {f : α → γ} {g : β → γ}
    (h : ∀ a b, R a b → f a = g b) :
    ∀ {l1 : List α} {l2 : List β}, List.Forall₂ R l1 l2 → l1.map f = l2.map g := by
  intro l1 l2 hf
  induction hf with
  | nil => simp
  | cons hR _ ih => simp [h _ _ hR, ih]

theorem forall2_mem_right {α β : Type _} {R : α → β → Prop} :
    ∀ {l1 : List α} {l2 : List β}, List.Forall₂ R l1 l2 → ∀ b ∈ l2, ∃ a ∈ l1, R a b := by
  intro l1 l2 hf
  induction hf with
  | nil => intro b hb; cases hb
  | cons hR _ ih =>
    intro b hb
    rcases List.mem_cons.mp hb with h | h
    · subst h; exact ⟨_, by simp, hR⟩
    · rcases ih b h with ⟨a, ha, hab⟩
      exact ⟨a, List.mem_cons_of_mem _ ha, hab⟩

/-- Parenthesise each compiled part and join with a clean separator: the
result is again a template, matching the joined SQL and flattened args. -/
theorem fragJoin_wrap {parts : List (String × List PyVal)} {frs : List (List Frag)}
    (sep : String) (hsep : qcount sep = 0) (h : List.Forall₂ FragOf parts frs) :
    FragOf (joinSep sep (parts.map (fun p => "(" ++ p.1 ++ ")")), (parts.map Prod.snd).flatten)
      (fragJoin sep (frs.map (fun fr => Frag.lit "(" :: (fr ++ [Frag.lit ")"])))) := by
  have hwrapR : ∀ fr : List Frag,
      renderFrags (Frag.lit "(" :: (fr ++ [Frag.lit ")"])) = "(" ++ renderFrags fr ++ ")" := by
    intro fr
    simp [renderFrags, renderFrags_append, String.append_assoc, String.append_empty]
  have hwrapA : ∀ fr : List Frag,
      fragArgs (Frag.lit "(" :: (fr ++ [Frag.lit ")"])) = fragArgs fr := by
    intro fr
    simp [fragArgs, fragArgs_append]
  refine ⟨?_, ?_, ?_⟩
  · rw [renderFrags_fragJoin, List.map_map]
    congr 1
    refine (forall2_map_eq ?_ h).symm
    intro p fr hR
    simp only [Function.comp, hwrapR, hR.1]
  · rw [fragArgs_fragJoin, List.map_map]
    congr 1
    refine (forall2_map_eq ?_ h).symm
    intro p fr hR
    simp only [Function.comp, hwrapA, hR.2.1]
  · refine litsNoQ_fragJoin hsep _ ?_
    intro l hl
    rcases List.mem_map.mp hl with ⟨fr, hfr, rfl⟩
    rcases forall2_mem_right h fr hfr with ⟨p, _, hR⟩
    refine litsNoQ_cons (by intro s hs; cases hs; rfl) ?_
    exact litsNoQ_append hR.2.2 (litsNoQ_cons (by intro s hs; cases hs; rfl) litsNoQ_nil)


theorem str_glue (a : String) {b c d : String} (h : b ++ c = d) :
    (a ++ b) ++ c = a ++ d := by
  rw [String.append_assoc, h]

theorem qcount_pytail {f : String} (h : qcount f = 0) : qcount (pytail f) = 0 := by
  have hs : (f.data.drop 1).count '?' ≤ f.data.count '?' :=
    (List.drop_sublist 1 f.data).count_le '?'
  have : qcount (pytail f) ≤ qcount f := hs
  omega

theorem flatten_map_singleton {α : Type _} (l : List α) :
    (l.map (fun v => [v])).flatten = l := by
  induction l with
  | nil => simp
  | cons x xs ih => simp [ih]

theorem litsNoQ_single_hole (v : PyVal) : litsNoQ [Frag.hole v] := by
  intro t ht
  simp at ht

theorem litsNoQ_single_lit {t : String} (h : qcount t = 0) : litsNoQ [Frag.lit t] := by
  intro u hu
  simp at hu
  rw [hu]
  exact h

/-- The template property claimed of `_compile_op`: every compiled fragment
arises from a template. -/
abbrev POp (c : PyVal) : Prop :=
  ∀ field s a, qcount field = 0 → _compile_op field c = .ok (s, a) →
    ∃ fr, FragOf (s, a) fr

/-- The template property for `_compile_op_each`. -/
abbrev POpEach (cs : List PyVal) : Prop :=
  ∀ field parts, qcount field = 0 → _compile_op_each field cs = .ok parts →
    ∃ frs, List.Forall₂ FragOf parts frs

theorem pOpEach_of (cs : List PyVal) (h : ∀ c ∈ cs, POp c) : POpEach cs := by
  induction cs with
  | nil =>
    intro field parts hq hok
    simp only [_compile_op_each] at hok
    cases hok
    exact ⟨[], List.Forall₂.nil⟩
  | cons c cs ih =>
    intro field parts hq hok
    simp only [_compile_op_each, bind, Except.bind] at hok
    cases h1 : _compile_op field c with
    | error e => rw [h1] at hok; cases hok
    | ok r =>
      rw [h1] at hok
      cases h2 : _compile_op_each field cs with
      | error e => rw [h2] at hok; cases hok
      | ok rs =>
        rw [h2] at hok
        cases hok
        obtain ⟨s1, a1⟩ := r
        obtain ⟨fr, hfr⟩ := h c (List.mem_cons_self _ _) field s1 a1 hq h1
        obtain ⟨frs, hfrs⟩ :=
          ih (fun x hx => h x (List.mem_cons_of_mem _ hx)) field rs hq h2
        exact ⟨fr :: frs, List.Forall₂.cons hfr hfrs⟩

theorem pOp_scalar_template (field : String) (c : PyVal) (hq : qcount field = 0) :
    ∃ fr, FragOf (field ++ " = ?", [c]) fr := by
  refine ⟨[.lit (field ++ " = "), .hole c], ?_, by simp [fragArgs], ?_⟩
  · show (field ++ " = ") ++ ("?" ++ renderFrags []) = _
    rw [show renderFrags [] = "" from rfl, String.append_empty]
    exact str_glue field rfl
  · refine litsNoQ_cons ?_ (litsNoQ_single_hole c)
    intro t ht
    cases ht
    simp only [qcount_append, hq]
    decide

theorem pOp_all : ∀ (n : Nat) (c : PyVal), sizeOf c ≤ n → POp c := by
  intro n
  induction n using Nat.strong_induction_on with
  | _ n ih =>
    intro c hc field s a hq hok
    cases c with
    | pynone =>
      simp only [_compile_op] at hok
      cases hok
      exact pOp_scalar_template field _ hq
    | int k =>
      simp only [_compile_op] at hok
      cases hok
      exact pOp_scalar_template field _ hq
    | str t0 =>
      simp only [_compile_op] at hok
      cases hok
      exact pOp_scalar_template field _ hq
    | dict kvs =>
      simp only [_compile_op] at hok
      cases hok
    | list xs =>
      cases xs with
      | nil => simp only [_compile_op] at hok; cases hok
      | cons op op_args =>
        cases op with
        | pynone => simp only [_compile_op] at hok; cases hok
        | int k => simp only [_compile_op] at hok; cases hok
        | list l => simp only [_compile_op] at hok; cases hok
        | dict d => simp only [_compile_op] at hok; cases hok
        | str s0 =>
          have hsz : sizeOf op_args < n := by
            have h1 : sizeOf (PyVal.list (PyVal.str s0 :: op_args)) ≤ n := hc
            simp only [PyVal.list.sizeOf_spec, List.cons.sizeOf_spec] at h1
            omega
          by_cases h1 : s0 = "AND" ∨ s0 = "OR"
          · rw [show _compile_op field (.list (.str s0 :: op_args)) =
                (do
                  let parts ← _compile_op_each field op_args
                  Except.ok
                    (joinSep (" " ++ s0 ++ " ") (parts.map (fun p => "(" ++ p.1 ++ ")")),
                     (parts.map Prod.snd).flatten)) by
              simp [_compile_op, h1]] at hok
            simp only [bind, Except.bind] at hok
            cases heach : _compile_op_each field op_args with
            | error e => rw [heach] at hok; cases hok
            | ok parts =>
              rw [heach] at hok
              obtain ⟨hs, ha⟩ := Prod.mk.inj (Except.ok.inj hok)
              subst hs
              subst ha
              have hPs : ∀ x ∈ op_args, POp x := by
                intro x hx
                have hx1 : sizeOf x < sizeOf op_args := List.sizeOf_lt_of_mem hx
                exact ih (sizeOf x) (hx1.trans hsz) x le_rfl
              obtain ⟨frs, hfrs⟩ := pOpEach_of op_args hPs field parts hq heach
              have hsep : qcount (" " ++ s0 ++ " ") = 0 := by
                rcases h1 with h | h <;> subst h <;> decide
              exact ⟨_, fragJoin_wrap _ hsep hfrs⟩
          · by_cases h2 : s0 = "IN" ∨ s0 = "NOT IN"
            · by_cases h3 : op_args.length < 1
              · rw [show _compile_op field (.list (.str s0 :: op_args)) =
                    .error (.valueError "operator requires at least one argument") by
                  simp [_compile_op, h1, h2, h3]] at hok
                cases hok
              · rw [show _compile_op field (.list (.str s0 :: op_args)) =
                    .ok (field ++ " " ++ s0 ++ " (" ++
                          joinSep ", " (op_args.map (fun _ => "?")) ++ ")",
                         op_args) by
                  simp [_compile_op, h1, h2, h3]] at hok
                obtain ⟨hs, ha⟩ := Prod.mk.inj (Except.ok.inj hok)
                subst hs
                subst ha
                have hs0 : qcount s0 = 0 := by
                  rcases h2 with h | h <;> subst h <;> decide
                refine ⟨Frag.lit (field ++ " " ++ s0 ++ " (") ::
                  (fragJoin ", " (op_args.map (fun v => [Frag.hole v])) ++ [Frag.lit ")"]),
                  ?_, ?_, ?_⟩
                · show (field ++ " " ++ s0 ++ " (") ++
                    renderFrags (fragJoin ", " (op_args.map (fun v => [Frag.hole v])) ++
                      [Frag.lit ")"]) = _
                  rw [renderFrags_append, renderFrags_fragJoin, List.map_map]
                  have hmap : (op_args.map (renderFrags ∘ fun v => [Frag.hole v])) =
                      op_args.map (fun _ => "?") := by
                    refine List.map_congr_left ?_
                    intro x _
                    show "?" ++ renderFrags [] = "?"
                    rw [show renderFrags [] = "" from rfl, String.append_empty]
                  rw [hmap]
                  rw [show renderFrags [Frag.lit ")"] = ")" ++ "" from rfl,
                    String.append_empty]
                  rw [← String.append_assoc]
                · show fragArgs (Frag.lit (field ++ " " ++ s0 ++ " (") ::
                    (fragJoin ", " (op_args.map (fun v => [Frag.hole v])) ++
                      [Frag.lit ")"])) = _
                  rw [show ∀ t fs, fragArgs (Frag.lit t :: fs) = fragArgs fs
                      from fun t fs => rfl]
                  rw [fragArgs_append, fragArgs_fragJoin, List.map_map]
                  have hmap : (op_args.map (fragArgs ∘ fun v => [Frag.hole v])) =
                      op_args.map (fun v => [v]) := by
                    refine List.map_congr_left ?_
                    intro x _
                    rfl
                  rw [hmap, flatten_map_singleton]
                  show op_args ++ fragArgs [] = op_args
                  simp [fragArgs]
                · refine litsNoQ_cons ?_ ?_
                  · intro t ht
                    cases ht
                    simp only [qcount_append, hq, hs0]
                    decide
                  · refine litsNoQ_append
                      (litsNoQ_fragJoin (show qcount ", " = 0 from rfl) _ ?_) ?_
                    · intro l hl
                      rcases List.mem_map.mp hl with ⟨v, _, rfl⟩
                      exact litsNoQ_single_hole v
                    · exact litsNoQ_single_lit rfl
            · by_cases h4 : s0 ∈ binaryOps
              · cases op_args with
                | nil =>
                  rw [show _compile_op field (.list [.str s0]) =
                      .error (.valueError "operator requires exactly one argument") by
                    simp [_compile_op, h1, h2, h4]] at hok
                  cases hok
                | cons a0 rest =>
                  cases rest with
                  | nil =>
                    rw [show _compile_op field (.list [.str s0, a0]) =
                        .ok (field ++ " " ++ s0 ++ " ?", [a0]) by
                      simp [_compile_op, h1, h2, h4]] at hok
                    obtain ⟨hs, ha⟩ := Prod.mk.inj (Except.ok.inj hok)
                    subst hs
                    subst ha
                    have hs0 : qcount s0 = 0 := by
                      fin_cases h4 <;> decide
                    refine ⟨[Frag.lit (field ++ " " ++ s0 ++ " "), Frag.hole a0],
                      ?_, by simp [fragArgs], ?_⟩
                    · show (field ++ " " ++ s0 ++ " ") ++ ("?" ++ renderFrags []) = _
                      rw [show renderFrags [] = "" from rfl, String.append_empty]
                      exact str_glue (field ++ " " ++ s0) rfl
                    · refine litsNoQ_cons ?_ (litsNoQ_single_hole a0)
                      intro t ht
                      cases ht
                      simp only [qcount_append, hq, hs0]
                      decide
                  | cons a1 rest2 =>
                    rw [show _compile_op field (.list (.str s0 :: a0 :: a1 :: rest2)) =
                        .error (.valueError "operator requires exactly one argument") by
                      simp [_compile_op, h1, h2, h4]] at hok
                    cases hok
              · rw [show _compile_op field (.list (.str s0 :: op_args)) =
                    .error (.valueError "Unrecognised operator") by
                  simp [_compile_op, h1, h2, h4]] at hok
                cases hok

/-- Every fragment compiled by `_compile_op` arises from a template. -/
theorem _compile_op_frags (field : String) (c : PyVal) (s : String) (a : List PyVal)
    (hq : qcount field = 0) (hok : _compile_op field c = .ok (s, a)) :
    ∃ fr, FragOf (s, a) fr :=
  pOp_all (sizeOf c) c le_rfl field s a hq hok

/-- Every fragment compiled by `compile_op` arises from a template. -/
theorem compile_op_frags (field : String) (c : PyVal) (s : String) (a : List PyVal)
    (hq : qcount field = 0) (hok : compile_op field c = .ok (s, a)) :
    ∃ fr, FragOf (s, a) fr := by
  unfold compile_op at hok
  simp only [bind, Except.bind] at hok
  cases hb : startsBang field with
  | false =>
    simp only [hb, Bool.false_eq_true, if_false] at hok
    cases h1 : _compile_op field c with
    | error e => rw [h1] at hok; cases hok
    | ok r =>
      rw [h1] at hok
      obtain ⟨s1, a1⟩ := r
      cases hok
      exact _compile_op_frags field c s1 a1 hq h1
  | true =>
    simp only [hb, if_true] at hok
    cases h1 : _compile_op (pytail field) c with
    | error e => rw [h1] at hok; cases hok
    | ok r =>
      rw [h1] at hok
      obtain ⟨s1, a1⟩ := r
      cases hok
      obtain ⟨fr, hr, ha, hn⟩ :=
        _compile_op_frags (pytail field) c s1 a1 (qcount_pytail hq) h1
      refine ⟨Frag.lit "NOT (" :: (fr ++ [Frag.lit ")"]), ?_, ?_, ?_⟩
      · show "NOT (" ++ renderFrags (fr ++ [Frag.lit ")"]) = _
        rw [renderFrags_append, hr,
          show renderFrags [Frag.lit ")"] = ")" ++ "" from rfl, String.append_empty,
          ← String.append_assoc]
      · show fragArgs (fr ++ [Frag.lit ")"]) = a1
        rw [fragArgs_append, ha]
        simp [fragArgs]
      · refine litsNoQ_cons (by intro t ht; cases ht; decide) ?_
        exact litsNoQ_append hn (litsNoQ_single_lit rfl)

mutual

/-- `?`-freeness of every field name in a criteria structure.  Field names
(dict keys) are the only caller-supplied text that is copied into the SQL
output; all other values travel in the argument tuple. -/
def noQFields : PyVal → Bool
  | .list xs => noQFieldsEach xs
  | .dict kvs => kvs.all (fun kv => qcount kv.1 == 0)
  | _ => true

/-- `noQFields` over the elements of a criteria list. -/
def noQFieldsEach : List PyVal → Bool
  | [] => true
  | c :: cs => noQFields c && noQFieldsEach cs

end

theorem compile_where_dict_frags :
    ∀ (kvs : List (String × PyVal)) (parts : List (String × List PyVal)),
      (kvs.all (fun kv => qcount kv.1 == 0)) = true →
      compile_where_dict kvs = .ok parts →
      ∃ frs, List.Forall₂ FragOf parts frs := by
  intro kvs
  induction kvs with
  | nil =>
    intro parts hq hok
    simp only [compile_where_dict] at hok
    cases hok
    exact ⟨[], List.Forall₂.nil⟩
  | cons kv kvs ih =>
    intro parts hq hok
    obtain ⟨f, c⟩ := kv
    simp only [List.all_cons, Bool.and_eq_true, beq_iff_eq] at hq
    simp only [compile_where_dict, bind, Except.bind] at hok
    cases h1 : compile_op f c with
    | error e => rw [h1] at hok; cases hok
    | ok r =>
      rw [h1] at hok
      cases h2 : compile_where_dict kvs with
      | error e => rw [h2] at hok; cases hok
      | ok rs =>
        rw [h2] at hok
        cases hok
        obtain ⟨s1, a1⟩ := r
        obtain ⟨fr, hfr⟩ := compile_op_frags f c s1 a1 hq.1 h1
        obtain ⟨frs, hfrs⟩ := ih rs (by simpa using hq.2) h2
        exact ⟨fr :: frs, List.Forall₂.cons hfr hfrs⟩

/-- The template property claimed of `compile_where`. -/
abbrev PW (c : PyVal) : Prop :=
  ∀ s a, noQFields c = true → compile_where c = .ok (s, a) →
    ∃ fr, FragOf (s, a) fr

theorem compile_where_each_frags (cs : List PyVal) (hP : ∀ c ∈ cs, PW c) :
    ∀ parts, noQFieldsEach cs = true → compile_where_each cs = .ok parts →
      ∃ frs, List.Forall₂ FragOf parts frs := by
  induction cs with
  | nil =>
    intro parts hq hok
    simp only [compile_where_each] at hok
    cases hok
    exact ⟨[], List.Forall₂.nil⟩
  | cons c cs ih =>
    intro parts hq hok
    simp only [noQFieldsEach, Bool.and_eq_true] at hq
    simp only [compile_where_each, bind, Except.bind] at hok
    cases h1 : compile_where c with
    | error e => rw [h1] at hok; cases hok
    | ok r =>
      rw [h1] at hok
      cases h2 : compile_where_each cs with
      | error e => rw [h2] at hok; cases hok
      | ok rs =>
        rw [h2] at hok
        cases hok
        obtain ⟨s1, a1⟩ := r
        obtain ⟨fr, hfr⟩ := hP c (List.mem_cons_self _ _) s1 a1 hq.1 h1
        obtain ⟨frs, hfrs⟩ :=
          ih (fun x hx => hP x (List.mem_cons_of_mem _ hx)) rs hq.2 h2
        exact ⟨fr :: frs, List.Forall₂.cons hfr hfrs⟩

theorem pW_all : ∀ (n : Nat) (c : PyVal), sizeOf c ≤ n → PW c := by
  intro n
  induction n using Nat.strong_induction_on with
  | _ n ih =>
    intro c hc s a hqf hok
    cases c with
    | pynone => simp only [compile_where] at hok; cases hok
    | int k => simp only [compile_where] at hok; cases hok
    | str t => simp only [compile_where] at hok; cases hok
    | dict kvs =>
      have hq : (kvs.all fun kv => qcount kv.1 == 0) = true := by
        simpa [noQFields] using hqf
      simp only [compile_where, bind, Except.bind] at hok
      cases h1 : compile_where_dict kvs with
      | error e => rw [h1] at hok; cases hok
      | ok parts =>
        rw [h1] at hok
        obtain ⟨hs, ha⟩ := Prod.mk.inj (Except.ok.inj hok)
        subst hs
        subst ha
        obtain ⟨frs, hfrs⟩ := compile_where_dict_frags kvs parts hq h1
        exact ⟨_, fragJoin_wrap " AND " (by decide) hfrs⟩
    | list xs =>
      have hq : noQFieldsEach xs = true := by simpa [noQFields] using hqf
      have hsz : sizeOf xs < n := by
        have h0 := hc
        simp only [PyVal.list.sizeOf_spec] at h0
        omega
      have hPs : ∀ x ∈ xs, PW x := fun x hx =>
        ih (sizeOf x) ((List.sizeOf_lt_of_mem hx).trans hsz) x le_rfl
      simp only [compile_where, bind, Except.bind] at hok
      cases h1 : compile_where_each xs with
      | error e => rw [h1] at hok; cases hok
      | ok parts =>
        rw [h1] at hok
        obtain ⟨hs, ha⟩ := Prod.mk.inj (Except.ok.inj hok)
        subst hs
        subst ha
        obtain ⟨frs, hfrs⟩ := compile_where_each_frags xs hPs parts hq h1
        exact ⟨_, fragJoin_wrap " OR " (by decide) hfrs⟩

/-- C2: for every criteria value accepted by the criteria compiler (field
names free of literal `?`, which never occurs in real field names),
`compile_where` returns a SQL fragment and an argument tuple with exactly
one `?` placeholder per argument, and the compiled output arises from a
template whose holes pair each placeholder with its argument in
left-to-right order. -/
theorem compile_where_placeholder_arg_correspondence
    (c : PyVal) (s : String) (a : List PyVal)
    (hq : noQFields c = true) (hok : compile_where c = .ok (s, a)) :
    qcount s = a.length ∧
      ∃ fr, renderFrags fr = s ∧ fragArgs fr = a ∧ litsNoQ fr := by
  obtain ⟨fr, h1, h2, h3⟩ := pW_all (sizeOf c) c le_rfl s a hq hok
  have h1a : renderFrags fr = s := h1
  have h2a : fragArgs fr = a := h2
  refine ⟨?_, fr, h1a, h2a, h3⟩
  rw [← h1a, ← h2a, qcount_renderFrags h3]

/-- Witness for C2 at a concrete composed criteria expression combining an
`IN` operator, a negated field and implicit equality. -/
theorem compile_where_placeholder_arg_correspondence_witness :
    noQFields (.dict [("a", .list [.str "IN", .int 1, .int 2]),
      ("!b", .list [.str "<", .int 7]), ("c", .str "x")]) = true ∧
    compile_where (.dict [("a", .list [.str "IN", .int 1, .int 2]),
      ("!b", .list [.str "<", .int 7]), ("c", .str "x")])
      = .ok ("(a IN (?, ?)) AND (NOT (b < ?)) AND (c = ?)",
             [.int 1, .int 2, .int 7, .str "x"]) ∧
    (qcount "(a IN (?, ?)) AND (NOT (b < ?)) AND (c = ?)" =
        [PyVal.int 1, PyVal.int 2, PyVal.int 7, PyVal.str "x"].length ∧
      ∃ fr, renderFrags fr = "(a IN (?, ?)) AND (NOT (b < ?)) AND (c = ?)" ∧
        fragArgs fr = [PyVal.int 1, PyVal.int 2, PyVal.int 7, PyVal.str "x"] ∧
        litsNoQ fr) := by
  have hq : noQFields (.dict [("a", .list [.str "IN", .int 1, .int 2]),
      ("!b", .list [.str "<", .int 7]), ("c", .str "x")]) = true := by
    simp only [noQFields]
    decide
  have hok : compile_where (.dict [("a", .list [.str "IN", .int 1, .int 2]),
      ("!b", .list [.str "<", .int 7]), ("c", .str "x")])
      = .ok ("(a IN (?, ?)) AND (NOT (b < ?)) AND (c = ?)",
             [.int 1, .int 2, .int 7, .str "x"]) := by
    simp only [compile_where, compile_where_dict, compile_op, _compile_op,
      _compile_op_each, joinSep, binaryOps, bind, Except.bind]
    rfl
  exact ⟨hq, hok, compile_where_placeholder_arg_correspondence _ _ _ hq hok⟩

/-! ### FieldSpec conversions (`entity.py`, C6) -/

namespace FieldSpec

/-- `entity.py` `FieldSpec.from_db` (inherited unchanged by `TextFieldSpec`
and `IntFieldSpec`): identity. -/
def from_db {α : Type _} (value : α) : α := value

/-- `entity.py` `FieldSpec.to_db` (inherited unchanged by `TextFieldSpec`
and `IntFieldSpec`): identity. -/
def to_db {α : Type _} (value : α) : α := value

end FieldSpec

namespace TextFieldSpec

/-- `entity.py` `TextFieldSpec.from_user`: `value or None` — an empty
(falsy) string becomes `None`. -/
def from_user (value : String) : Option String :=
  if value = "" then none else some value

/-- `entity.py` `TextFieldSpec.to_user`: `value or ""` — `None` (and the
falsy empty string) becomes `""`. -/
def to_user (value : Option String) : String :=
  match value with
  | none => ""
  | some s => if s = "" then "" else s

end TextFieldSpec

/-- Python decimal digit value of a character. -/
def digitVal (c : Char) : Option Nat :=
  if '0' ≤ c ∧ c ≤ '9' then some (c.toNat - 48) else none

/-- ASCII whitespace stripped by Python `int()` (the model ignores the
rarer unicode spaces, which never round-trip anyway). -/
def isPySpace (c : Char) : Bool :=
  c == ' ' || c == '\t' || c == '\n' || c == '\r' || c == Char.ofNat 11 || c == Char.ofNat 12

/-- Python `str.strip()` on a character list. -/
def pystrip (cs : List Char) : List Char :=
  ((cs.dropWhile isPySpace).reverse.dropWhile isPySpace).reverse

/-- Accumulating evaluation of a digit run as `int()` does, honouring the
single-underscore-between-digits rule of Python 3 integer literals. -/
def digitsVal (acc : Nat) : List Char → Option Nat
  | [] => some acc
  | c :: cs =>
    match digitVal c with
    | some d => digitsVal (acc * 10 + d) cs
    | none =>
      if c = '_' then
        match cs with
        | c2 :: _ => if (digitVal c2).isSome then digitsVal acc cs else none
        | [] => none
      else none

/-- Python `int(raw, base=10)` on the character list of the input: strip
whitespace, optional sign, then a non-empty digit run (underscores allowed
between digits). -/
def pyParseIntList (cs0 : List Char) : Except PyErr Int :=
  let cs := pystrip cs0
  match cs with
  | [] => .error (.valueError "invalid literal for int() with base 10")
  | c :: rest =>
    let neg : Bool := c = '-'
    let ds := if c = '-' ∨ c = '+' then rest else cs
    match ds with
    | [] => .error (.valueError "invalid literal for int() with base 10")
    | d0 :: _ =>
      if (digitVal d0).isSome then
        match digitsVal 0 ds with
        | some v => .ok (if neg then -(v : Int) else (v : Int))
        | none => .error (.valueError "invalid literal for int() with base 10")
      else .error (.valueError "invalid literal for int() with base 10")

/-- Python `int(raw, base=10)`. -/
def pyParseInt (raw : String) : Except PyErr Int := pyParseIntList raw.data

/-- Decimal digits of a natural number, most significant first
(the digit list of Python `str()`). -/
def natToDigits (n : Nat) : List Char :=
  if h : n < 10 then [Char.ofNat (48 + n)]
  else natToDigits (n / 10) ++ [Char.ofNat (48 + n % 10)]
decreasing_by exact Nat.div_lt_self (by omega) (by omega)

/-- Python `str()` of an int: minimal decimal form, `-` for negatives. -/
def pyStrInt (n : Int) : String :=
  if n < 0 then String.mk ('-' :: natToDigits n.natAbs)
  else String.mk (natToDigits n.natAbs)

namespace IntFieldSpec

/-- `entity.py` `IntFieldSpec.from_user`: `int(raw, base=10)`. -/
def from_user (raw : String) : Except PyErr Int := pyParseInt raw

/-- `entity.py` `IntFieldSpec.to_user`: `str(value)`. -/
def to_user (value : Int) : String := pyStrInt value

end IntFieldSpec

/-- A timezone-aware UTC Python datetime: whole seconds since the epoch
plus microseconds. -/
structure PyDateTime where
  sec : Int
  usec : Nat
deriving DecidableEq, Repr

namespace DateTimeFieldSpec

/-- `entity.py` `DateTimeFieldSpec.to_db`: `int(value.timestamp())` — the
timestamp is `sec + usec / 1e6` and `int()` truncates toward zero. -/
def to_db (value : PyDateTime) : Int :=
  if 0 ≤ value.sec ∨ value.usec = 0 then value.sec else value.sec + 1

/-- `entity.py` `DateTimeFieldSpec.from_db`:
`datetime.fromtimestamp(raw, tz=utc)` — whole seconds, no microseconds. -/
def from_db (raw : Int) : PyDateTime := ⟨raw, 0⟩

end DateTimeFieldSpec

example : pyParseInt "007" = .ok 7 := rfl
example : pyParseInt " -42 " = .ok (-42) := rfl
example : pyParseInt "1_0" = .ok 10 := rfl
example : pyParseInt "1__0" = .error (.valueError "invalid literal for int() with base 10") := rfl
example : pyParseInt "" = .error (.valueError "invalid literal for int() with base 10") := rfl

theorem digit_char_val {m : Nat} (h : m < 10) :
    digitVal (Char.ofNat (48 + m)) = some m := by
  interval_cases m <;> decide

theorem natToDigits_ne_nil (m : Nat) : natToDigits m ≠ [] := by
  rw [natToDigits]
  split
  · simp
  · simp

theorem natToDigits_all_digits : ∀ m, ∀ c ∈ natToDigits m, (digitVal c).isSome := by
  intro m
  induction m using Nat.strong_induction_on with
  | _ m ih =>
    intro c hc
    rw [natToDigits] at hc
    split at hc
    · simp at hc
      subst hc
      rw [digit_char_val (by omega)]
      rfl
    · rcases List.mem_append.mp hc with h | h
      · exact ih (m / 10) (Nat.div_lt_self (by omega) (by omega)) c h
      · simp at h
        subst h
        rw [digit_char_val (Nat.mod_lt _ (by omega))]
        rfl

theorem digitsVal_append_digit {xs : List Char} (hxs : ∀ c ∈ xs, (digitVal c).isSome)
    {c : Char} {d : Nat} (hc : digitVal c = some d) :
    ∀ acc, digitsVal acc (xs ++ [c]) = (digitsVal acc xs).map (fun v => v * 10 + d) := by
  induction xs with
  | nil =>
    intro acc
    simp [digitsVal, hc]
  | cons x xs ih =>
    intro acc
    have hx : (digitVal x).isSome := hxs x (List.mem_cons_self _ _)
    obtain ⟨dx, hdx⟩ := Option.isSome_iff_exists.mp hx
    simp only [List.cons_append, digitsVal, hdx]
    exact ih (fun u hu => hxs u (List.mem_cons_of_mem _ hu)) _

set_option maxHeartbeats 1000000

theorem natToDigits_val : ∀ m acc,
    digitsVal acc (natToDigits m) = some (acc * 10 ^ (natToDigits m).length + m) := by
  intro m
  induction m using Nat.strong_induction_on with
  | _ m ih =>
    intro acc
    rw [natToDigits]
    split
    · have hd := digit_char_val (show m < 10 by omega)
      simp [digitsVal, hd]
    · have hlt : m / 10 < m := Nat.div_lt_self (by omega) (by omega)
      rw [digitsVal_append_digit (natToDigits_all_digits (m / 10))
        (digit_char_val (Nat.mod_lt _ (by omega))), ih (m / 10) hlt acc]
      show (some (acc * 10 ^ (natToDigits (m / 10)).length + m / 10)).map
          (fun v => v * 10 + m % 10) =
        some (acc * 10 ^ (natToDigits (m / 10) ++
          [Char.ofNat (48 + m % 10)]).length + m)
      simp only [Option.map_some']
      congr 1
      rw [List.length_append, List.length_singleton, pow_succ, ← Nat.mul_assoc]
      have hdm := Nat.div_add_mod m 10
      generalize acc * 10 ^ (natToDigits (m / 10)).length = A
      omega

theorem digit_not_space {c : Char} (h : (digitVal c).isSome) : isPySpace c = false := by
  by_contra hc
  have hc2 : isPySpace c = true := by
    cases h2 : isPySpace c
    · exact absurd h2 hc
    · rfl
  simp only [isPySpace, Bool.or_eq_true, beq_iff_eq] at hc2
  rcases hc2 with ((((h2 | h2) | h2) | h2) | h2) | h2 <;> subst h2 <;> simp [digitVal] at h

theorem dropWhile_all_neg {p : Char → Bool} :
    ∀ xs : List Char, (∀ c ∈ xs, p c = false) → xs.dropWhile p = xs := by
  intro xs h
  cases xs with
  | nil => rfl
  | cons x xs => simp [List.dropWhile_cons, h x (List.mem_cons_self _ _)]

theorem pystrip_all {cs : List Char} (h : ∀ c ∈ cs, isPySpace c = false) :
    pystrip cs = cs := by
  unfold pystrip
  rw [dropWhile_all_neg cs h, dropWhile_all_neg cs.reverse
    (fun c hc => h c (List.mem_reverse.mp hc)), List.reverse_reverse]

theorem pyParseInt_pyStrInt (n : Int) : pyParseInt (pyStrInt n) = .ok n := by
  have hdigits : ∀ c ∈ natToDigits n.natAbs, isPySpace c = false :=
    fun c hc => digit_not_space (natToDigits_all_digits _ c hc)
  obtain ⟨d0, ds, hds⟩ := List.exists_cons_of_ne_nil (natToDigits_ne_nil n.natAbs)
  have hd0 : (digitVal d0).isSome :=
    natToDigits_all_digits n.natAbs d0 (by rw [hds]; exact List.mem_cons_self _ _)
  have hval : digitsVal 0 (natToDigits n.natAbs) = some n.natAbs := by
    rw [natToDigits_val]
    simp
  by_cases hn : n < 0
  · have hstrip : pystrip ('-' :: natToDigits n.natAbs) = '-' :: natToDigits n.natAbs := by
      refine pystrip_all ?_
      intro c hc
      rcases List.mem_cons.mp hc with h | h
      · subst h; rfl
      · exact hdigits c h
    have hdata : (pyStrInt n).data = '-' :: natToDigits n.natAbs := by
      rw [pyStrInt, if_pos hn]
    have hval2 : digitsVal 0 (d0 :: ds) = some n.natAbs := by
      rw [← hds]
      exact hval
    rw [pyParseInt, hdata, pyParseIntList]
    simp only [hstrip]
    rw [hds]
    simp [hd0, hval2, abs_of_nonpos (show n ≤ 0 from by omega)]
  · have hstrip : pystrip (natToDigits n.natAbs) = natToDigits n.natAbs :=
      pystrip_all hdigits
    have hdata : (pyStrInt n).data = natToDigits n.natAbs := by
      rw [pyStrInt, if_neg hn]
    have hnotsign : ¬(d0 = '-' ∨ d0 = '+') := by
      intro h
      rcases h with h | h <;> subst h <;> simp [digitVal] at hd0
    have hns1 : (d0 = '-' ∨ d0 = '+') = False := by
      simp only [eq_iff_iff, iff_false]
      exact hnotsign
    have hns2 : decide (d0 = '-') = false := by
      refine decide_eq_false ?_
      intro h
      exact hnotsign (Or.inl h)
    have hval2 : digitsVal 0 (d0 :: ds) = some n.natAbs := by
      rw [← hds]
      exact hval
    rw [pyParseInt, hdata, pyParseIntList]
    simp only [hstrip]
    rw [hds]
    simp [hns1, hd0, hval2, hns2]
    omega
/-- C6 counterexample: the user-conversion round trip fails on the
non-canonical integer input `"007"` — `IntFieldSpec.from_user` accepts it
(Python `int("007") = 7`) but `to_user` reprints it as `"7"` — and the
storage round trip of `DateTimeFieldSpec` truncates fractional seconds
(`int(value.timestamp())`), so `from_db (to_db v) ≠ v` for a value with
`usec = 500000`. -/
theorem fieldspec_round_trip_counterexample :
    (IntFieldSpec.from_user "007" = .ok 7 ∧ IntFieldSpec.to_user 7 = "7" ∧
      "7" ≠ "007") ∧
    (DateTimeFieldSpec.to_db ⟨5, 500000⟩ = 5 ∧
      DateTimeFieldSpec.from_db (DateTimeFieldSpec.to_db ⟨5, 500000⟩) = ⟨5, 0⟩ ∧
      (⟨5, 0⟩ : PyDateTime) ≠ (⟨5, 500000⟩ : PyDateTime)) := by
  refine ⟨⟨rfl, ?_, by decide⟩, by decide, by decide, by decide⟩
  show pyStrInt 7 = "7"
  rw [pyStrInt, if_neg (by decide : ¬(7 : Int) < 0),
    show ((7 : Int).natAbs) = 7 from rfl, natToDigits]
  decide

/-- C6 corrected: the conversion round trips that do hold on the code.
`TextFieldSpec` round-trips every user string (empty maps through `None`
back to empty) and its storage conversions are the identity;
`IntFieldSpec`'s storage conversions are the identity and its user
conversions round-trip exactly the canonical decimal strings `str(n)`;
`DateTimeFieldSpec`'s storage conversions round-trip exactly the
whole-second values. -/
theorem fieldspec_round_trips_corrected :
    (∀ v : String, TextFieldSpec.to_user (TextFieldSpec.from_user v) = v) ∧
    (∀ v : Option String, FieldSpec.from_db (FieldSpec.to_db v) = v) ∧
    (∀ n : Int, IntFieldSpec.from_user (IntFieldSpec.to_user n) = .ok n) ∧
    (∀ n : Int, FieldSpec.from_db (FieldSpec.to_db n) = n) ∧
    (∀ d : PyDateTime, d.usec = 0 →
      DateTimeFieldSpec.from_db (DateTimeFieldSpec.to_db d) = d) := by
  refine ⟨?_, fun v => rfl, fun n => pyParseInt_pyStrInt n, fun n => rfl, ?_⟩
  · intro v
    by_cases h : v = ""
    · subst h
      rfl
    · simp [TextFieldSpec.from_user, TextFieldSpec.to_user, h]
  · intro d h
    obtain ⟨sec, usec⟩ := d
    simp only at h
    subst h
    simp [DateTimeFieldSpec.to_db, DateTimeFieldSpec.from_db]

/-- Witness for the corrected C6 round trips at concrete values. -/
theorem fieldspec_round_trips_corrected_witness :
    TextFieldSpec.to_user (TextFieldSpec.from_user "") = "" ∧
    IntFieldSpec.from_user (IntFieldSpec.to_user (-12)) = .ok (-12) ∧
    ((⟨9, 0⟩ : PyDateTime).usec = 0 ∧
      DateTimeFieldSpec.from_db (DateTimeFieldSpec.to_db ⟨9, 0⟩) = ⟨9, 0⟩) :=
  ⟨fieldspec_round_trips_corrected.1 "",
   fieldspec_round_trips_corrected.2.2.1 (-12),
   rfl, fieldspec_round_trips_corrected.2.2.2.2 ⟨9, 0⟩ rfl⟩

/-! ### Entity state model (`entity.py`) -/

/-- Values stored in entity fields.  An Enum member is identified by its
storage value, a `datetime.date` by its ISO form, and a reference to
another in-memory Entity object by that object's address. -/
inductive Val where
  | none
  | int (n : Int)
  | str (s : String)
  | enum (v : String)
  | date (iso : String)
  | ref (addr : Nat)
deriving DecidableEq, Repr

/-- Field specifications, as instantiated by the entity modules.
`nullable` is not carried: in the source it only affects `CREATE TABLE`,
never `check` — in particular `ForeignFieldSpec.check` rejects `None`
even for nullable foreign fields. -/
inductive FSpec where
  | intF (minimum maximum : Option Int) (default : Val)
  | text (default : Val)
  | enumText (vals : List String) (default : Val)
  | dateTime (default : Val)
  | dateF (default : Val)
  | foreign (table : String) (field : String) (default : Val)
deriving DecidableEq, Repr

/-- The spec's `default` attribute. -/
def FSpec.default : FSpec → Val
  | .intF _ _ d => d
  | .text d => d
  | .enumText _ d => d
  | .dateTime d => d
  | .dateF d => d
  | .foreign _ _ d => d

/-- `Entity.ref` (`entity.py` line 122): `(table, id, None)` once persisted,
`(table, None, id(self))` while pending. -/
abbrev RefKey := String × Option Val × Option Nat

instance : DecidableEq RefKey := inferInstance

instance : DecidableEq (List (RefKey × Nat)) := inferInstance

instance : DecidableEq (String × List (RefKey × Nat)) := inferInstance

instance : DecidableEq (List (String × List (RefKey × Nat))) := inferInstance

/-- The in-memory state of one Entity object. -/
structure EntityState where
  table : String
  idField : String
  readOnly : List String
  fields : List (String × FSpec)
  entityId : Option Val
  dataFields : List (String × Val)
  changedFields : List (String × Val)
  deleteFlag : Bool
  references : List (String × List (RefKey × Nat))
deriving DecidableEq, Repr

/-- The heap of live Entity objects, keyed by object address (`id(self)`). -/
abbrev World := List (Nat × EntityState)

/-- Association-list lookup (Python dict read). -/
def alget {κ ν : Type _} [DecidableEq κ] : List (κ × ν) → κ → Option ν
  | [], _ => Option.none
  | (k2, v) :: rest, k => if k2 = k then some v else alget rest k

/-- Association-list store (Python dict write: replace in place, else
append, preserving insertion order). -/
def alset {κ ν : Type _} [DecidableEq κ] (l : List (κ × ν)) (k : κ) (v : ν) :
    List (κ × ν) :=
  if (alget l k).isSome then l.map (fun p => if p.1 = k then (k, v) else p)
  else l ++ [(k, v)]

/-- Association-list delete (Python dict `pop`/`del`). -/
def alerase {κ ν : Type _} [DecidableEq κ] (l : List (κ × ν)) (k : κ) :
    List (κ × ν) :=
  l.filter (fun p => decide (p.1 ≠ k))

/-- Modify the entity at an address in place. -/
def wmodify (w : World) (addr : Nat) (f : EntityState → EntityState) : World :=
  w.map (fun p => if p.1 = addr then (addr, f p.2) else p)

/-- `Entity.ref`. -/
def EntityState.refKey (e : EntityState) (addr : Nat) : RefKey :=
  match e.entityId with
  | some v => (e.table, some v, Option.none)
  | Option.none => (e.table, Option.none, some addr)

/-- `Entity.__getitem__`: the id field reads `entity_id` (`None` while
pending); otherwise a staged value overrides the committed one; an unknown
field is a `KeyError`. -/
def entity_getitem (w : World) (addr : Nat) (name : String) : Except PyErr Val :=
  match alget w addr with
  | Option.none => .error (.keyError "no such object")
  | some e =>
    if name = e.idField then
      .ok (match e.entityId with | some v => v | Option.none => .none)
    else
      match alget e.changedFields name with
      | some v => .ok v
      | Option.none =>
        match alget e.dataFields name with
        | some v => .ok v
        | Option.none => .error (.keyError name)

/-- `RangeFieldSpec.check` lower bound: Python raises `TypeError` when the
value cannot be compared to the bound. -/
def rangeCheckLow (value : Val) : Option Int → Except PyErr Unit
  | Option.none => .ok ()
  | some lo =>
    match value with
    | .int n => if n < lo then .error (.valueError "value too low") else .ok ()
    | _ => .error (.typeError "unorderable types")

/-- `RangeFieldSpec.check` upper bound. -/
def rangeCheckHigh (value : Val) : Option Int → Except PyErr Unit
  | Option.none => .ok ()
  | some hi =>
    match value with
    | .int n => if hi < n then .error (.valueError "value too high") else .ok ()
    | _ => .error (.typeError "unorderable types")

/-- `FieldSpec.check` and its overrides.  `TextFieldSpec` inherits the
no-op base check; `EnumTextFieldSpec.check` calls the enum constructor,
which accepts a member or a valid raw value; `ForeignFieldSpec.check` is an
`isinstance` test against the target entity class and rejects `None`
regardless of nullability. -/
def FSpec.check (spec : FSpec) (w : World) (value : Val) : Except PyErr Unit :=
  match spec with
  | .intF mn mx _ => do
    rangeCheckLow value mn
    rangeCheckHigh value mx
  | .text _ => .ok ()
  | .enumText vals _ =>
    match value with
    | .enum v => if v ∈ vals then .ok () else .error (.valueError "not a valid enum value")
    | .str v => if v ∈ vals then .ok () else .error (.valueError "not a valid enum value")
    | _ => .error (.valueError "not a valid enum value")
  | .dateTime _ => .ok ()
  | .dateF _ => .ok ()
  | .foreign tbl _ _ =>
    match value with
    | .ref r =>
      match alget w r with
      | some e => if e.table = tbl then .ok () else .error (.typeError "expecting entity class")
      | Option.none => .error (.typeError "expecting entity class")
    | _ => .error (.typeError "expecting entity class")

/-- `_references.setdefault(entity._ENTITY_TABLE, {})`: the per-table
reference dict, or a fresh empty one. -/
def refRow (refs : List (String × List (RefKey × Nat))) (tbl : String) :
    List (RefKey × Nat) :=
  match alget refs tbl with
  | some m => m
  | Option.none => []

/-- The inner deletion of `Entity._unlink`: drop the entry for `key` if it
currently records exactly the object `selfAddr`, swallowing a missing
key (`except KeyError: pass`). -/
def unlinkRefs (refs : List (RefKey × Nat)) (key : RefKey) (selfAddr : Nat) :
    List (RefKey × Nat) :=
  match alget refs key with
  | some stored => if stored = selfAddr then alerase refs key else refs
  | Option.none => refs

/-- `Entity._link`, invoked on the target: record
`references[self.table][self.ref] = self` on the target entity. -/
def entity_link (w : World) (targetAddr selfAddr : Nat) : World :=
  match alget w targetAddr, alget w selfAddr with
  | some tgt, some slf =>
    let refs2 := alset tgt.references slf.table
      (alset (refRow tgt.references slf.table) (slf.refKey selfAddr) selfAddr)
    wmodify w targetAddr (fun t => { t with references := refs2 })
  | _, _ => w

/-- `Entity._unlink`, invoked on the target: drop the entry for `self` if
it is the recorded object, then drop the per-table dict if it is empty. -/
def entity_unlink (w : World) (targetAddr selfAddr : Nat) : World :=
  match alget w targetAddr, alget w selfAddr with
  | some tgt, some slf =>
    match alget tgt.references slf.table with
    | Option.none => w
    | some refs =>
      let refs2 := unlinkRefs refs (slf.refKey selfAddr) selfAddr
      let newrefs := if refs2 = [] then alerase tgt.references slf.table
        else alset tgt.references slf.table refs2
      wmodify w targetAddr (fun t => { t with references := newrefs })
  | _, _ => w

/-- `Entity.__setitem__` (`entity.py` lines 196-209): write-protection
check, validation, staging into `_changed_fields`, then for foreign fields
`old._unlink(self); value._link(self)` — with no `None` guard on `old`. -/
def entity_setitem (w : World) (addr : Nat) (name : String) (value : Val) :
    Except PyErr Unit × World :=
  match alget w addr with
  | Option.none => (.error (.keyError "no such object"), w)
  | some e =>
    if name = e.idField ∨ name ∈ e.readOnly then
      (.error (.valueError (name ++ " is read-only")), w)
    else
      match alget e.fields name with
      | Option.none => (.error (.keyError name), w)
      | some spec =>
        match spec.check w value with
        | .error err => (.error err, w)
        | .ok _ =>
          match entity_getitem w addr name with
          | .error err => (.error err, w)
          | .ok old =>
            let w1 := wmodify w addr (fun e2 =>
              { e2 with changedFields := alset e2.changedFields name value })
            match spec with
            | .foreign _ _ _ =>
              match old with
              | .ref r =>
                let w2 := entity_unlink w1 r addr
                match value with
                | .ref r2 => (.ok (), entity_link w2 r2 addr)
                | _ => (.error (.attributeError "object has no attribute _link"), w2)
              | _ => (.error (.attributeError "NoneType object has no attribute _unlink"), w1)
            | _ => (.ok (), w1)

/-- `Entity.__delitem__` (`entity.py` lines 211-219): pop the staged value,
read the committed value, and for foreign fields unlink the staged target
and re-link the committed one (guarding `None` only on the committed
side). -/
def entity_delitem (w : World) (addr : Nat) (name : String) :
    Except PyErr Unit × World :=
  match alget w addr with
  | Option.none => (.error (.keyError "no such object"), w)
  | some e =>
    match alget e.changedFields name with
    | Option.none => (.error (.keyError name), w)
    | some old =>
      let w1 := wmodify w addr (fun e2 =>
        { e2 with changedFields := alerase e2.changedFields name })
      match alget e.dataFields name with
      | Option.none => (.error (.keyError name), w1)
      | some value =>
        match alget e.fields name with
        | Option.none => (.error (.keyError name), w1)
        | some spec =>
          match spec with
          | .foreign _ _ _ =>
            match old with
            | .ref r =>
              let w2 := entity_unlink w1 r addr
              match value with
              | .none => (.ok (), w2)
              | .ref r2 => (.ok (), entity_link w2 r2 addr)
              | _ => (.error (.attributeError "object has no attribute _link"), w2)
            | _ => (.error (.attributeError "NoneType object has no attribute _unlink"), w1)
          | _ => (.ok (), w1)

/-- The set of staged field names (`Entity.dirty`), in staging order. -/
def entity_dirty (w : World) (addr : Nat) : List String :=
  match alget w addr with
  | some e => e.changedFields.map Prod.fst
  | Option.none => []

/-- The loop of `Entity.revert`: `for field in dirty: del self[field]`. -/
def entity_revert_loop (w : World) (addr : Nat) :
    List String → Except PyErr Unit × World
  | [] => (.ok (), w)
  | k :: ks =>
    match entity_delitem w addr k with
    | (.ok _, w1) => entity_revert_loop w1 addr ks
    | (.error e, w1) => (.error e, w1)

/-- `Entity.revert` (`entity.py` lines 244-250). -/
def entity_revert (w : World) (addr : Nat) : Except PyErr Unit × World :=
  entity_revert_loop w addr (entity_dirty w addr)

/-- The loop of `Entity._link_all`: `self[name]._link(self)` for every
foreign field — with no `None` guard on `self[name]`. -/
def entity_link_all_loop (w : World) (addr : Nat) :
    List (String × FSpec) → Except PyErr Unit × World
  | [] => (.ok (), w)
  | (name, spec) :: rest =>
    match spec with
    | .foreign _ _ _ =>
      match entity_getitem w addr name with
      | .error e => (.error e, w)
      | .ok v =>
        match v with
        | .ref r => entity_link_all_loop (entity_link w r addr) addr rest
        | _ => (.error (.attributeError "NoneType object has no attribute _link"), w)
    | _ => entity_link_all_loop w addr rest

/-- `Entity._link_all` (`entity.py` lines 283-286). -/
def entity_link_all (w : World) (addr : Nat) : Except PyErr Unit × World :=
  match alget w addr with
  | some e => entity_link_all_loop w addr e.fields
  | Option.none => (.ok (), w)

/-- The loop of `Entity._unlink_all`: `self[name]._unlink(self)` for every
foreign field — with no `None` guard on `self[name]`. -/
def entity_unlink_all_loop (w : World) (addr : Nat) :
    List (String × FSpec) → Except PyErr Unit × World
  | [] => (.ok (), w)
  | (name, spec) :: rest =>
    match spec with
    | .foreign _ _ _ =>
      match entity_getitem w addr name with
      | .error e => (.error e, w)
      | .ok v =>
        match v with
        | .ref r => entity_unlink_all_loop (entity_unlink w r addr) addr rest
        | _ => (.error (.attributeError "NoneType object has no attribute _unlink"), w)
    | _ => entity_unlink_all_loop w addr rest

/-- `Entity._unlink_all` (`entity.py` lines 304-307). -/
def entity_unlink_all (w : World) (addr : Nat) : Except PyErr Unit × World :=
  match alget w addr with
  | some e => entity_unlink_all_loop w addr e.fields
  | Option.none => (.ok (), w)

/-- The `delete` setter (`entity.py` lines 162-169): record the flag, then
unlink from (or re-link to) every foreign target. -/
def entity_set_delete (w : World) (addr : Nat) (value : Bool) :
    Except PyErr Unit × World :=
  let w1 := wmodify w addr (fun e => { e with deleteFlag := value })
  if value then entity_unlink_all w1 addr else entity_link_all w1 addr

/-- The field loop of `Entity.__init__`: take each field from the kwargs or
the spec default, skip an unset id, validate, and store every non-id
field. -/
def entity_init_fields (w : World) (idField : String)
    (kwargs : List (String × Val)) :
    List (String × FSpec) → Except PyErr (List (String × Val))
  | [] => .ok []
  | (name, spec) :: rest =>
    let value := match alget kwargs name with
      | some v => v
      | Option.none => spec.default
    if name = idField ∧ value = .none then
      entity_init_fields w idField kwargs rest
    else
      match spec.check w value with
      | .error e => .error e
      | .ok _ =>
        match entity_init_fields w idField kwargs rest with
        | .error e => .error e
        | .ok restData =>
          if name = idField then .ok restData else .ok ((name, value) :: restData)

/-- `Entity.__init__` (`entity.py` lines 74-117): validate and store the
fields, create the object, then `_link_all`. -/
def entity_init (w : World) (addr : Nat) (table idField : String)
    (readOnly : List String) (fields : List (String × FSpec))
    (entityId : Option Val) (kwargs : List (String × Val)) :
    Except PyErr Unit × World :=
  match entity_init_fields w idField kwargs fields with
  | .error e => (.error e, w)
  | .ok data =>
    let s : EntityState := {
      table := table, idField := idField, readOnly := readOnly,
      fields := fields, entityId := entityId, dataFields := data,
      changedFields := [], deleteFlag := false, references := [] }
    entity_link_all ((addr, s) :: w) addr

/-- Whether an exception is an `AttributeError`. -/
def PyErr.isAttributeError : PyErr → Bool
  | .attributeError _ => true
  | _ => false

/-- The `Stage` schema (`stage.py`). -/
def stageFields : List (String × FSpec) :=
  [("div_id", .foreign "division" "div_id" .none),
   ("stg_id", .intF (some 0) Option.none .none),
   ("stg_name", .text .none),
   ("stg_num", .intF (some 0) Option.none .none),
   ("stg_order", .intF (some 0) Option.none .none)]

/-- The `Division` schema (`division.py`). -/
def divisionFields : List (String × FSpec) :=
  [("event_id", .foreign "event" "event_id" .none),
   ("div_id", .intF (some 0) Option.none .none),
   ("div_name", .text .none),
   ("div_num", .intF (some 0) Option.none .none),
   ("start_date", .dateF .none),
   ("end_date", .dateF .none)]

/-- The `Log` schema (`log.py`): `div_id`, `cpt_id` and `cmp_id` are
declared nullable in the source, which only affects `CREATE TABLE`. -/
def logFields : List (String × FSpec) :=
  [("event_id", .foreign "event" "event_id" .none),
   ("div_id", .foreign "division" "div_id" .none),
   ("log_id", .intF (some 0) Option.none .none),
   ("log_ts", .dateTime .none),
   ("cpt_num", .intF (some 0) Option.none .none),
   ("cpt_id", .foreign "checkpoint" "cpt_id" .none),
   ("cmp_num", .intF (some 0) Option.none .none),
   ("cmp_id", .foreign "competitor" "cmp_id" .none),
   ("log_status", .enumText ["INCOMPLETE", "INVALID", "DUPLICATE", "LOGGED",
     "SENT", "INCONSISTENT", "AMENDED", "DELETED"] (.enum "LOGGED"))]

/-- A committed Division object used as test data (only the table name of a
reference target participates in the modelled checks and link updates). -/
def divState : EntityState := {
  table := "division", idField := "div_id", readOnly := ["event_id"],
  fields := divisionFields, entityId := some (.int 3),
  dataFields := [("event_id", .ref 0), ("div_name", .str "d"),
    ("div_num", .int 1), ("start_date", .date "2024-05-01"),
    ("end_date", .date "2024-05-02")],
  changedFields := [], deleteFlag := false, references := [] }

/-- A committed Stage object referencing `divState`, used as test data. -/
def stageState : EntityState := {
  table := "stage", idField := "stg_id", readOnly := ["div_id"],
  fields := stageFields, entityId := some (.int 7),
  dataFields := [("div_id", .ref 1), ("stg_name", .str "s"),
    ("stg_num", .int 2), ("stg_order", .int 1)],
  changedFields := [], deleteFlag := false, references := [] }

/-- Test world: the Division at address 1, the Stage at address 2. -/
def wStage : World := [(1, divState), (2, stageState)]

/-- C7: writing the identity field or a field listed read-only fails with
the write-protection `ValueError` before any mutation, and a write whose
validation (`FieldSpec.check`) fails propagates that error, both leaving
the whole world — committed values, staged values, dirty set and reference
links of every entity — exactly as before the write. -/
theorem setitem_write_protection_and_validation_no_mutation
    (w : World) (addr : Nat) (name : String) (value : Val) (e : EntityState)
    (he : alget w addr = some e) :
    ((name = e.idField ∨ name ∈ e.readOnly) →
      entity_setitem w addr name value =
        (.error (.valueError (name ++ " is read-only")), w)) ∧
    (∀ spec err, ¬(name = e.idField ∨ name ∈ e.readOnly) →
      alget e.fields name = some spec →
      FSpec.check spec w value = .error err →
      entity_setitem w addr name value = (.error err, w)) := by
  constructor
  · intro h
    simp only [entity_setitem, he]
    rw [if_pos h]
  · intro spec err h hspec hcheck
    simp only [entity_setitem, he]
    rw [if_neg h]
    simp only [hspec, hcheck]

/-- Witness for C7 at a concrete Stage entity: the id field, the read-only
`div_id` and an out-of-domain value for `stg_num` all fail without change
to the world. -/
theorem setitem_write_protection_and_validation_no_mutation_witness :
    alget wStage 2 = some stageState ∧
    entity_setitem wStage 2 "stg_id" (.int 9) =
      (.error (.valueError "stg_id is read-only"), wStage) ∧
    entity_setitem wStage 2 "div_id" (.ref 1) =
      (.error (.valueError "div_id is read-only"), wStage) ∧
    entity_setitem wStage 2 "stg_num" (.str "x") =
      (.error (.typeError "unorderable types"), wStage) := by
  have he : alget wStage 2 = some stageState := rfl
  refine ⟨he, ?_, ?_, ?_⟩
  · exact (setitem_write_protection_and_validation_no_mutation
      wStage 2 "stg_id" (.int 9) stageState he).1 (by decide)
  · exact (setitem_write_protection_and_validation_no_mutation
      wStage 2 "div_id" (.ref 1) stageState he).1 (by decide)
  · exact (setitem_write_protection_and_validation_no_mutation
      wStage 2 "stg_num" (.str "x") stageState he).2
      (.intF (some 0) Option.none .none) (.typeError "unorderable types")
      (by decide) rfl rfl

/-- Committed reference-target objects for the Log test world: only the
table name participates in the modelled checks and link updates. -/
def evtState : EntityState := {
  table := "event", idField := "event_id", readOnly := [], fields := [],
  entityId := some (.int 1), dataFields := [], changedFields := [],
  deleteFlag := false, references := [] }

def cptState : EntityState := {
  table := "checkpoint", idField := "cpt_id", readOnly := [], fields := [],
  entityId := some (.int 2), dataFields := [], changedFields := [],
  deleteFlag := false, references := [] }

def cmpState : EntityState := {
  table := "competitor", idField := "cmp_id", readOnly := [], fields := [],
  entityId := some (.int 4), dataFields := [], changedFields := [],
  deleteFlag := false, references := [] }

/-- A committed Log object whose nullable `div_id` holds `None`. -/
def logState : EntityState := {
  table := "log", idField := "log_id", readOnly := ["event_id"],
  fields := logFields, entityId := some (.int 10),
  dataFields := [("event_id", .ref 1), ("div_id", .none), ("log_ts", .int 0),
    ("cpt_num", .int 1), ("cpt_id", .ref 2), ("cmp_num", .int 5),
    ("cmp_id", .ref 3), ("log_status", .enum "LOGGED")],
  changedFields := [], deleteFlag := false, references := [] }

/-- Test world for the Log claims: targets at 1-4, the Log at 9. -/
def wLog : World :=
  [(1, evtState), (2, cptState), (3, cmpState), (4, divState), (9, logState)]

/-- C10 counterexample: constructing a Log-like entity whose nullable
`div_id` is left `None` does NOT fail with an attribute error as the claim
states — `ForeignFieldSpec.check`, which ignores nullability, rejects the
`None` with a `TypeError` before `_link_all` ever runs. -/
theorem none_foreign_construction_counterexample :
    (entity_init [(1, evtState)] 9 "log" "log_id" ["event_id"] logFields
        (some (.int 10)) [("event_id", .ref 1)]).1
      = .error (.typeError "expecting entity class") ∧
    ((match (entity_init [(1, evtState)] 9 "log" "log_id" ["event_id"] logFields
        (some (.int 10)) [("event_id", .ref 1)]).1 with
      | .error e => e.isAttributeError
      | .ok _ => false) = false) := by
  constructor
  · rfl
  · rfl

/-- C10 corrected: given an entity whose foreign-key field currently holds
`None`, writing a new valid target to that field stages the new value and
then fails with an `AttributeError` on `old._unlink` (the link update never
completes), and toggling the delete flag in either direction fails with an
`AttributeError` in `_unlink_all`/`_link_all`; but CONSTRUCTING an entity
with `None` in a nullable foreign field fails earlier, with the validation
`TypeError` of `ForeignFieldSpec.check`, never reaching the link walk. -/
theorem none_foreign_ops_attribute_error
    (w : World) (addr : Nat) (name : String) (e : EntityState)
    (tbl fld : String) (d v2 : Val)
    (he : alget w addr = some e)
    (hname : ¬(name = e.idField ∨ name ∈ e.readOnly))
    (hspec : alget e.fields name = some (.foreign tbl fld d))
    (hcheck : FSpec.check (.foreign tbl fld d) w v2 = .ok ())
    (hstage : alget e.changedFields name = Option.none)
    (hdata : alget e.dataFields name = some .none) :
    (entity_setitem w addr name v2 =
      (.error (.attributeError "NoneType object has no attribute _unlink"),
       wmodify w addr (fun e2 =>
         { e2 with changedFields := alset e2.changedFields name v2 }))) ∧
    ((entity_set_delete wLog 9 true).1 =
      .error (.attributeError "NoneType object has no attribute _unlink")) ∧
    ((entity_set_delete wLog 9 false).1 =
      .error (.attributeError "NoneType object has no attribute _link")) ∧
    ((entity_init [(1, evtState)] 9 "log" "log_id" ["event_id"] logFields
        (some (.int 10)) [("event_id", .ref 1)]).1
      = .error (.typeError "expecting entity class")) := by
  refine ⟨?_, rfl, rfl, rfl⟩
  have hni : ¬name = e.idField := fun h => hname (Or.inl h)
  simp only [entity_setitem, he]
  rw [if_neg hname]
  simp only [hspec, hcheck, entity_getitem, he]
  rw [if_neg hni]
  simp only [hstage, hdata]

/-- Witness for the corrected C10 at the concrete Log world: writing a
Division to the `None`-valued `div_id` stages the value, then raises the
attribute error. -/
theorem none_foreign_ops_attribute_error_witness :
    alget wLog 9 = some logState ∧
    FSpec.check (.foreign "division" "div_id" .none) wLog (.ref 4) = .ok () ∧
    (entity_setitem wLog 9 "div_id" (.ref 4) =
      (.error (.attributeError "NoneType object has no attribute _unlink"),
       wmodify wLog 9 (fun e2 =>
         { e2 with changedFields := alset e2.changedFields "div_id" (.ref 4) }))) ∧
    ((entity_set_delete wLog 9 true).1 =
      .error (.attributeError "NoneType object has no attribute _unlink")) ∧
    ((entity_set_delete wLog 9 false).1 =
      .error (.attributeError "NoneType object has no attribute _link")) := by
  obtain ⟨h1, h2, h3, _⟩ := none_foreign_ops_attribute_error wLog 9 "div_id" logState
    "division" "div_id" .none (.ref 4) rfl (by decide) rfl rfl rfl rfl
  exact ⟨rfl, rfl, h1, h2, h3⟩

/-! ### Reverting staged edits (`Entity.revert`, C8) -/

theorem alget_cons_self {κ ν : Type _} [DecidableEq κ] (k : κ) (v : ν)
    (l : List (κ × ν)) : alget ((k, v) :: l) k = some v := by
  simp [alget]

theorem alget_cons_ne {κ ν : Type _} [DecidableEq κ] {k k2 : κ} (v : ν)
    (l : List (κ × ν)) (h : k ≠ k2) : alget ((k, v) :: l) k2 = alget l k2 := by
  simp [alget, h]

theorem alget_append {κ ν : Type _} [DecidableEq κ] (l1 l2 : List (κ × ν)) (k : κ) :
    alget (l1 ++ l2) k = ((alget l1 k).rec (alget l2 k) (fun v => some v)) := by
  induction l1 with
  | nil => simp [alget]
  | cons p l1 ih =>
    obtain ⟨k2, v⟩ := p
    by_cases h : k2 = k
    · subst h
      simp [alget]
    · simp [alget, h, ih]

theorem alget_map_replace {κ ν : Type _} [DecidableEq κ] (l : List (κ × ν))
    (k : κ) (v : ν) (k2 : κ) :
    alget (l.map (fun p => if p.1 = k then (k, v) else p)) k2 =
      if k = k2 then (alget l k).map (fun _ => v) else alget l k2 := by
  induction l with
  | nil =>
    by_cases h : k = k2 <;> simp [alget, h]
  | cons p l ih =>
    obtain ⟨k3, v3⟩ := p
    simp only [List.map_cons]
    by_cases h3 : k3 = k
    · subst h3
      rw [if_pos (show ((k3, v3) : κ × ν).1 = k3 from rfl)]
      by_cases h2 : k3 = k2
      · subst h2
        rw [alget_cons_self, alget_cons_self, if_pos rfl]
        simp
      · rw [alget_cons_ne _ _ h2, alget_cons_ne _ _ h2, ih, if_neg h2, if_neg h2]
    · rw [if_neg (show ¬((k3, v3) : κ × ν).1 = k from h3)]
      by_cases h4 : k3 = k2
      · subst h4
        rw [alget_cons_self, if_neg (fun hh => h3 hh.symm), alget_cons_self]
      · rw [alget_cons_ne _ _ h4, ih, alget_cons_ne _ _ h3, alget_cons_ne _ _ h4]

theorem alget_alset_self {κ ν : Type _} [DecidableEq κ] (l : List (κ × ν))
    (k : κ) (v : ν) : alget (alset l k v) k = some v := by
  unfold alset
  split
  · rename_i h
    rw [alget_map_replace, if_pos rfl]
    obtain ⟨v2, hv2⟩ := Option.isSome_iff_exists.mp h
    simp [hv2]
  · rename_i h
    rw [alget_append]
    have h2 : alget l k = Option.none := by
      cases h3 : alget l k
      · rfl
      · rw [h3] at h
        simp at h
    rw [h2]
    simp [alget]

theorem alget_alset_ne {κ ν : Type _} [DecidableEq κ] (l : List (κ × ν))
    {k k2 : κ} (v : ν) (h : k ≠ k2) : alget (alset l k v) k2 = alget l k2 := by
  unfold alset
  split
  · rw [alget_map_replace, if_neg h]
  · rw [alget_append]
    cases h3 : alget l k2
    · simp [alget, h, Ne.symm h]
    · simp

theorem alget_alerase {κ ν : Type _} [DecidableEq κ] (l : List (κ × ν))
    (k k2 : κ) :
    alget (alerase l k) k2 = if k = k2 then Option.none else alget l k2 := by
  induction l with
  | nil =>
    by_cases h : k = k2 <;> simp [alerase, alget, h]
  | cons p l ih =>
    obtain ⟨k3, v3⟩ := p
    simp only [alerase, List.filter_cons]
    by_cases h3 : k3 = k
    · subst h3
      rw [if_neg (by simp)]
      rw [show List.filter (fun p => decide (p.1 ≠ k3)) l = alerase l k3 from rfl, ih]
      by_cases h2 : k3 = k2
      · rw [if_pos h2, if_pos h2]
      · rw [if_neg h2, if_neg h2, alget_cons_ne _ _ h2]
    · rw [if_pos (by simpa using h3)]
      by_cases h4 : k3 = k2
      · subst h4
        rw [alget_cons_self, if_neg (fun hh => h3 hh.symm), alget_cons_self]
      · rw [alget_cons_ne _ _ h4,
          show List.filter (fun p => decide (p.1 ≠ k)) l = alerase l k from rfl, ih]
        by_cases h5 : k = k2
        · rw [if_pos h5, if_pos h5]
        · rw [if_neg h5, if_neg h5, alget_cons_ne _ _ h4]

theorem alerase_of_not_mem {κ ν : Type _} [DecidableEq κ] (l : List (κ × ν))
    (k : κ) (h : k ∉ l.map Prod.fst) : alerase l k = l := by
  induction l with
  | nil => rfl
  | cons p l ih =>
    obtain ⟨k2, v2⟩ := p
    simp only [List.map_cons, List.mem_cons] at h
    push_neg at h
    simp only [alerase, List.filter_cons]
    rw [if_pos (by simpa using (Ne.symm h.1))]
    rw [show List.filter (fun p => decide (p.1 ≠ k)) l = alerase l k from rfl, ih h.2]

theorem alget_wmodify (w : World) (a : Nat) (f : EntityState → EntityState)
    (r : Nat) :
    alget (wmodify w a f) r = if a = r then (alget w a).map f else alget w r := by
  induction w with
  | nil =>
    by_cases h : a = r <;> simp [wmodify, alget, h]
  | cons p w ih =>
    obtain ⟨a2, e2⟩ := p
    simp only [wmodify, List.map_cons]
    by_cases h2 : a2 = a
    · subst h2
      rw [if_pos (show ((a2, e2) : Nat × EntityState).1 = a2 from rfl)]
      by_cases h3 : a2 = r
      · subst h3
        rw [alget_cons_self, alget_cons_self, if_pos rfl]
        simp
      · rw [alget_cons_ne _ _ h3,
          show List.map (fun p => if p.1 = a2 then (a2, f p.2) else p) w
            = wmodify w a2 f from rfl, ih, if_neg h3, if_neg h3,
          alget_cons_ne _ _ h3]
    · rw [if_neg (show ¬((a2, e2) : Nat × EntityState).1 = a from h2)]
      by_cases h4 : a2 = r
      · subst h4
        rw [alget_cons_self, if_neg (fun hh => h2 hh.symm), alget_cons_self]
      · rw [alget_cons_ne _ _ h4,
          show List.map (fun p => if p.1 = a then (a, f p.2) else p) w
            = wmodify w a f from rfl, ih]
        by_cases h5 : a = r
        · rw [if_pos h5, if_pos h5, alget_cons_ne _ _ h2]
        · rw [if_neg h5, if_neg h5, alget_cons_ne _ _ h4]

/-- The reference graph fact claimed by the spec: the target entity records
a back-link for `self` under `self`'s table and ref key. -/
def hasBackLink (w : World) (tgt self : Nat) : Bool :=
  match alget w tgt, alget w self with
  | some t, some s =>
    match alget t.references s.table with
    | some m =>
      match alget m (s.refKey self) with
      | some stored => stored == self
      | Option.none => false
    | Option.none => false
  | _, _ => false

theorem refKey_congr {a b : EntityState} (x : Nat) (ht : b.table = a.table)
    (hi : b.entityId = a.entityId) : b.refKey x = a.refKey x := by
  unfold EntityState.refKey
  rw [ht, hi]

theorem alget_entity_link_ne (w : World) (t s : Nat) {r : Nat} (h : r ≠ t) :
    alget (entity_link w t s) r = alget w r := by
  unfold entity_link
  cases h1 : alget w t with
  | none => rfl
  | some tgt =>
    cases h2 : alget w s with
    | none => rfl
    | some slf =>
      simp only []
      rw [alget_wmodify, if_neg (fun hh => h hh.symm)]

theorem alget_entity_link_self (w : World) (t s : Nat) {b : EntityState}
    (h : alget w t = some b) :
    ∃ refs2, alget (entity_link w t s) t = some { b with references := refs2 } := by
  unfold entity_link
  rw [h]
  cases h2 : alget w s with
  | none => exact ⟨b.references, by rw [h]⟩
  | some slf =>
    simp only []
    refine ⟨alset b.references slf.table
      (alset (refRow b.references slf.table) (slf.refKey s) s), ?_⟩
    rw [alget_wmodify, if_pos rfl, h]
    rfl

theorem alget_entity_unlink_ne (w : World) (t s : Nat) {r : Nat} (h : r ≠ t) :
    alget (entity_unlink w t s) r = alget w r := by
  unfold entity_unlink
  cases h1 : alget w t with
  | none => rfl
  | some tgt =>
    cases h2 : alget w s with
    | none => rfl
    | some slf =>
      simp only []
      cases h3 : alget tgt.references slf.table with
      | none => rfl
      | some refs =>
        simp only []
        rw [alget_wmodify, if_neg (fun hh => h hh.symm)]

theorem alget_entity_unlink_self (w : World) (t s : Nat) {b : EntityState}
    (h : alget w t = some b) :
    ∃ refs2, alget (entity_unlink w t s) t = some { b with references := refs2 } := by
  unfold entity_unlink
  rw [h]
  cases h2 : alget w s with
  | none => exact ⟨b.references, by rw [h]⟩
  | some slf =>
    simp only []
    cases h3 : alget b.references slf.table with
    | none => exact ⟨b.references, by rw [h]⟩
    | some refs =>
      simp only []
      refine ⟨(if unlinkRefs refs (slf.refKey s) s = []
          then alerase b.references slf.table
          else alset b.references slf.table (unlinkRefs refs (slf.refKey s) s)), ?_⟩
      rw [alget_wmodify, if_pos rfl, h]
      rfl

theorem isSome_alget_entity_link (w : World) (t s r : Nat) :
    (alget (entity_link w t s) r).isSome = (alget w r).isSome := by
  by_cases h : r = t
  · subst h
    cases h1 : alget w r with
    | none =>
      unfold entity_link
      rw [h1]
      simp [h1]
    | some b =>
      obtain ⟨refs2, h2⟩ := alget_entity_link_self w r s h1
      rw [h2]
      rfl
  · rw [alget_entity_link_ne w t s h]

theorem isSome_alget_entity_unlink (w : World) (t s r : Nat) :
    (alget (entity_unlink w t s) r).isSome = (alget w r).isSome := by
  by_cases h : r = t
  · subst h
    cases h1 : alget w r with
    | none =>
      unfold entity_unlink
      rw [h1]
      simp [h1]
    | some b =>
      obtain ⟨refs2, h2⟩ := alget_entity_unlink_self w r s h1
      rw [h2]
      rfl
  · rw [alget_entity_unlink_ne w t s h]

theorem isSome_alget_wmodify (w : World) (a : Nat) (f : EntityState → EntityState)
    (r : Nat) : (alget (wmodify w a f) r).isSome = (alget w r).isSome := by
  rw [alget_wmodify]
  by_cases h : a = r
  · subst h
    cases alget w a <;> simp
  · rw [if_neg h]

theorem hasBackLink_intro {w : World} {t s : Nat} {tgt slf : EntityState}
    {m : List (RefKey × Nat)}
    (h1 : alget w t = some tgt) (h2 : alget w s = some slf)
    (h3 : alget tgt.references slf.table = some m)
    (h4 : alget m (slf.refKey s) = some s) : hasBackLink w t s = true := by
  unfold hasBackLink
  simp [h1, h2, h3, h4]

theorem hasBackLink_elim {w : World} {t s : Nat}
    (h : hasBackLink w t s = true) :
    ∃ tgt slf m, alget w t = some tgt ∧ alget w s = some slf ∧
      alget tgt.references slf.table = some m ∧
      alget m (slf.refKey s) = some s := by
  unfold hasBackLink at h
  cases h1 : alget w t with
  | none => rw [h1] at h; simp at h
  | some tgt =>
    cases h2 : alget w s with
    | none => rw [h1, h2] at h; simp at h
    | some slf =>
      rw [h1, h2] at h
      simp only [] at h
      cases h3 : alget tgt.references slf.table with
      | none => rw [h3] at h; simp at h
      | some m =>
        rw [h3] at h
        simp only [] at h
        cases h4 : alget m (slf.refKey s) with
        | none => rw [h4] at h; simp at h
        | some stored =>
          rw [h4] at h
          simp only [beq_iff_eq] at h
          subst h
          exact ⟨tgt, slf, m, rfl, rfl, h3, h4⟩

/-- Linking establishes the back-link. -/
theorem hasBackLink_of_link (w : World) (t s : Nat)
    (ht : (alget w t).isSome) (hs : (alget w s).isSome) :
    hasBackLink (entity_link w t s) t s = true := by
  obtain ⟨tgt, h1⟩ := Option.isSome_iff_exists.mp ht
  obtain ⟨slf, h2⟩ := Option.isSome_iff_exists.mp hs
  have hw : entity_link w t s = wmodify w t (fun b =>
      { b with references := (alset tgt.references slf.table
          (alset (refRow tgt.references slf.table) (slf.refKey s) s)) }) := by
    unfold entity_link
    rw [h1, h2]
  rw [hw]
  by_cases hst : s = t
  · subst hst
    have hts : tgt = slf := by
      rw [h1] at h2
      exact Option.some.inj h2
    subst hts
    refine @hasBackLink_intro _ _ _ _ _
      (alset (refRow tgt.references tgt.table) (tgt.refKey s) s)
      (by rw [alget_wmodify, if_pos rfl, h1]; rfl)
      (by rw [alget_wmodify, if_pos rfl, h1]; rfl)
      ?_ ?_
    · show alget (alset tgt.references tgt.table _) tgt.table = _
      rw [alget_alset_self]
    · show alget (alset (refRow tgt.references tgt.table) (tgt.refKey s) s)
        (EntityState.refKey _ s) = some s
      rw [show EntityState.refKey { tgt with references := (alset tgt.references tgt.table
          (alset (refRow tgt.references tgt.table) (tgt.refKey s) s)) } s
          = tgt.refKey s from refKey_congr s rfl rfl]
      rw [alget_alset_self]
  · refine @hasBackLink_intro _ _ _ _ _
      (alset (refRow tgt.references slf.table) (slf.refKey s) s)
      (by rw [alget_wmodify, if_pos rfl, h1]; rfl)
      (by rw [alget_wmodify, if_neg (fun hh => hst hh.symm), h2])
      ?_ ?_
    · show alget (alset tgt.references slf.table _) slf.table = _
      rw [alget_alset_self]
    · rw [alget_alset_self]

/-- A link to a different target (or by the same referrer) preserves an
existing back-link. -/
theorem hasBackLink_link_preserved {w : World} {t s : Nat} (t2 s2 : Nat)
    (h : hasBackLink w t s = true) (hcond : t2 ≠ t ∨ s2 = s) :
    hasBackLink (entity_link w t2 s2) t s = true := by
  obtain ⟨tgt, slf, m, h1, h2, h3, h4⟩ := hasBackLink_elim h
  by_cases ht2 : t2 = t
  · subst ht2
    rcases hcond with hne | heq
    · exact absurd rfl hne
    · subst heq
      exact hasBackLink_of_link w t2 s2 (by rw [h1]; rfl) (by rw [h2]; rfl)
  · have h1a : alget (entity_link w t2 s2) t = some tgt := by
      rw [alget_entity_link_ne w t2 s2 (fun hh => ht2 hh.symm)]
      exact h1
    by_cases hs2 : s = t2
    · subst hs2
      obtain ⟨refs2, h2a⟩ := alget_entity_link_self w s s2 h2
      refine @hasBackLink_intro _ _ _ _ _ m h1a h2a ?_ ?_
      · exact h3
      · rw [refKey_congr s rfl rfl]
        exact h4
    · have h2a : alget (entity_link w t2 s2) s = some slf := by
        rw [alget_entity_link_ne w t2 s2 hs2]
        exact h2
      exact hasBackLink_intro h1a h2a h3 h4

/-- An unlink whose target is a different entity preserves an existing
back-link. -/
theorem hasBackLink_unlink_preserved {w : World} {t s : Nat} (t2 s2 : Nat)
    (h : hasBackLink w t s = true) (hne : t2 ≠ t) :
    hasBackLink (entity_unlink w t2 s2) t s = true := by
  obtain ⟨tgt, slf, m, h1, h2, h3, h4⟩ := hasBackLink_elim h
  have h1a : alget (entity_unlink w t2 s2) t = some tgt := by
    rw [alget_entity_unlink_ne w t2 s2 (fun hh => hne hh.symm)]
    exact h1
  by_cases hs2 : s = t2
  · subst hs2
    obtain ⟨refs2, h2a⟩ := alget_entity_unlink_self w s s2 h2
    refine @hasBackLink_intro _ _ _ _ _ m h1a h2a ?_ ?_
    · exact h3
    · rw [refKey_congr s rfl rfl]
      exact h4
  · have h2a : alget (entity_unlink w t2 s2) s = some slf := by
      rw [alget_entity_unlink_ne w t2 s2 hs2]
      exact h2
    exact hasBackLink_intro h1a h2a h3 h4

/-- An in-place modification that keeps table, id and references intact
preserves an existing back-link. -/
theorem hasBackLink_wmodify_preserved {w : World} {t s : Nat} (a : Nat)
    (f : EntityState → EntityState)
    (hf : ∀ e, (f e).table = e.table ∧ (f e).entityId = e.entityId ∧
      (f e).references = e.references)
    (h : hasBackLink w t s = true) :
    hasBackLink (wmodify w a f) t s = true := by
  obtain ⟨tgt, slf, m, h1, h2, h3, h4⟩ := hasBackLink_elim h
  have h1a : ∃ tgt2, alget (wmodify w a f) t = some tgt2 ∧
      tgt2.references = tgt.references := by
    rw [alget_wmodify]
    by_cases hat : a = t
    · subst hat
      rw [if_pos rfl, h1]
      exact ⟨f tgt, rfl, (hf tgt).2.2⟩
    · rw [if_neg hat]
      exact ⟨tgt, h1, rfl⟩
  have h2a : ∃ slf2, alget (wmodify w a f) s = some slf2 ∧
      slf2.table = slf.table ∧ slf2.entityId = slf.entityId := by
    rw [alget_wmodify]
    by_cases has : a = s
    · subst has
      rw [if_pos rfl, h2]
      exact ⟨f slf, rfl, (hf slf).1, (hf slf).2.1⟩
    · rw [if_neg has]
      exact ⟨slf, h2, rfl, rfl⟩
  obtain ⟨tgt2, h1b, h1c⟩ := h1a
  obtain ⟨slf2, h2b, h2c, h2d⟩ := h2a
  refine @hasBackLink_intro _ _ _ _ _ m h1b h2b ?_ ?_
  · rw [h1c, h2c]
    exact h3
  · rw [refKey_congr s h2c h2d]
    exact h4

/-- Whether a spec is a `ForeignFieldSpec`. -/
def FSpec.isForeign : FSpec → Bool
  | .foreign _ _ _ => true
  | _ => false

theorem alerase_cons_self {κ ν : Type _} [DecidableEq κ] (k : κ) (v : ν)
    (l : List (κ × ν)) : alerase ((k, v) :: l) k = alerase l k := by
  simp only [alerase, List.filter_cons]
  rw [if_neg (by simp)]

theorem revert_step_nonforeign (w : World) (addr : Nat) (k : String)
    (e : EntityState) (v dv : Val) (sp : FSpec)
    (he : alget w addr = some e)
    (hch : alget e.changedFields k = some v)
    (hdv : alget e.dataFields k = some dv)
    (hsp : alget e.fields k = some sp)
    (hnf : sp.isForeign = false) :
    entity_delitem w addr k = (.ok (), wmodify w addr (fun e2 =>
      { e2 with changedFields := alerase e2.changedFields k })) := by
  unfold entity_delitem
  simp only [he, hch, hdv, hsp]
  cases sp with
  | foreign t f d => simp [FSpec.isForeign] at hnf
  | intF mn mx d0 => rfl
  | text d0 => rfl
  | enumText vs d0 => rfl
  | dateTime d0 => rfl
  | dateF d0 => rfl

theorem revert_step_foreign_none (w : World) (addr : Nat) (k : String)
    (e : EntityState) (tbl fld : String) (d : Val) (r1 : Nat)
    (he : alget w addr = some e)
    (hch : alget e.changedFields k = some (.ref r1))
    (hdv : alget e.dataFields k = some .none)
    (hsp : alget e.fields k = some (.foreign tbl fld d)) :
    entity_delitem w addr k = (.ok (), entity_unlink (wmodify w addr (fun e2 =>
      { e2 with changedFields := alerase e2.changedFields k })) r1 addr) := by
  unfold entity_delitem
  simp only [he, hch, hdv, hsp]

theorem revert_step_foreign_ref (w : World) (addr : Nat) (k : String)
    (e : EntityState) (tbl fld : String) (d : Val) (r1 r2 : Nat)
    (he : alget w addr = some e)
    (hch : alget e.changedFields k = some (.ref r1))
    (hdv : alget e.dataFields k = some (.ref r2))
    (hsp : alget e.fields k = some (.foreign tbl fld d)) :
    entity_delitem w addr k = (.ok (),
      entity_link (entity_unlink (wmodify w addr (fun e2 =>
        { e2 with changedFields := alerase e2.changedFields k })) r1 addr) r2 addr) := by
  unfold entity_delitem
  simp only [he, hch, hdv, hsp]

theorem alget_after_unlink (w : World) (addr t1 s1 : Nat) {e : EntityState}
    (he : alget w addr = some e) :
    ∃ e2, alget (entity_unlink w t1 s1) addr = some e2 ∧
      e2.changedFields = e.changedFields ∧ e2.dataFields = e.dataFields ∧
      e2.fields = e.fields ∧ e2.idField = e.idField ∧ e2.table = e.table ∧
      e2.entityId = e.entityId := by
  by_cases h : addr = t1
  · subst h
    obtain ⟨refs2, h2⟩ := alget_entity_unlink_self w addr s1 he
    exact ⟨_, h2, rfl, rfl, rfl, rfl, rfl, rfl⟩
  · rw [alget_entity_unlink_ne w t1 s1 h]
    exact ⟨e, he, rfl, rfl, rfl, rfl, rfl, rfl⟩

theorem alget_after_link (w : World) (addr t1 s1 : Nat) {e : EntityState}
    (he : alget w addr = some e) :
    ∃ e2, alget (entity_link w t1 s1) addr = some e2 ∧
      e2.changedFields = e.changedFields ∧ e2.dataFields = e.dataFields ∧
      e2.fields = e.fields ∧ e2.idField = e.idField ∧ e2.table = e.table ∧
      e2.entityId = e.entityId := by
  by_cases h : addr = t1
  · subst h
    obtain ⟨refs2, h2⟩ := alget_entity_link_self w addr s1 he
    exact ⟨_, h2, rfl, rfl, rfl, rfl, rfl, rfl⟩
  · rw [alget_entity_link_ne w t1 s1 h]
    exact ⟨e, he, rfl, rfl, rfl, rfl, rfl, rfl⟩

/-- Induction core for `entity_revert`: processing the staged fields in
order deletes every staged entry, leaves the committed data intact, and
re-links the committed foreign targets. -/
theorem revert_loop_spec (addr : Nat) :
    ∀ (cf : List (String × Val)) (w : World) (e : EntityState),
      alget w addr = some e →
      e.changedFields = cf →
      (cf.map Prod.fst).Nodup →
      (∀ p ∈ cf, ∃ sp, alget e.fields p.1 = some sp ∧
        ∃ dv, alget e.dataFields p.1 = some dv ∧
          (∀ tbl fld d, sp = FSpec.foreign tbl fld d →
            (∃ r, p.2 = Val.ref r) ∧
            (dv = Val.none ∨ ∃ r2, dv = Val.ref r2 ∧ (alget w r2).isSome = true))) →
      (∀ p ∈ cf, ∀ q ∈ cf, p.1 ≠ q.1 →
        ∀ r1 r2, p.2 = Val.ref r1 →
          (∃ t1 f1 d1, alget e.fields p.1 = some (FSpec.foreign t1 f1 d1)) →
          (∃ t2 f2 d2, alget e.fields q.1 = some (FSpec.foreign t2 f2 d2)) →
          alget e.dataFields q.1 = some (Val.ref r2) → r1 ≠ r2) →
      ∃ w2 e2,
        entity_revert_loop w addr (cf.map Prod.fst) = (.ok (), w2) ∧
        alget w2 addr = some e2 ∧
        e2.changedFields = [] ∧
        e2.dataFields = e.dataFields ∧
        e2.fields = e.fields ∧ e2.idField = e.idField ∧
        e2.table = e.table ∧ e2.entityId = e.entityId ∧
        (∀ p ∈ cf, ∀ tbl fld d r,
          alget e.fields p.1 = some (FSpec.foreign tbl fld d) →
          alget e.dataFields p.1 = some (Val.ref r) →
          hasBackLink w2 r addr = true) ∧
        (∀ t, hasBackLink w t addr = true →
          (∀ q ∈ cf, ∀ r, q.2 = Val.ref r →
            (∃ t2 f2 d2, alget e.fields q.1 = some (FSpec.foreign t2 f2 d2)) →
            r ≠ t) →
          hasBackLink w2 t addr = true) := by
  intro cf
  induction cf with
  | nil =>
    intro w e he hcf hnd hdata hdisj
    refine ⟨w, e, rfl, he, hcf, rfl, rfl, rfl, rfl, rfl, ?_, ?_⟩
    · intro p hp
      cases hp
    · intro t h _
      exact h
  | cons kv rest ih =>
    obtain ⟨k, v⟩ := kv
    intro w e he hcf hnd hdata hdisj
    obtain ⟨sp, hsp, dv, hdv, hforprops⟩ := hdata (k, v) (List.mem_cons_self _ _)
    have hch : alget e.changedFields k = some v := by
      rw [hcf]
      exact alget_cons_self _ _ _
    have hknotin : k ∉ rest.map Prod.fst := by
      simp only [List.map_cons] at hnd
      exact (List.nodup_cons.mp hnd).1
    have hndrest : (rest.map Prod.fst).Nodup := by
      simp only [List.map_cons] at hnd
      exact (List.nodup_cons.mp hnd).2
    have hqnek : ∀ q ∈ rest, (q : String × Val).1 ≠ k := by
      intro q hq hqk
      exact hknotin (hqk ▸ List.mem_map_of_mem Prod.fst hq)
    have herase : alerase e.changedFields k = rest := by
      rw [hcf, alerase_cons_self, alerase_of_not_mem _ _ hknotin]
    have he1 : alget (wmodify w addr (fun e2 =>
        { e2 with changedFields := alerase e2.changedFields k })) addr
        = some { e with changedFields := rest } := by
      rw [alget_wmodify, if_pos rfl, he]
      simp only [Option.map_some']
      rw [herase]
    have happly : ∀ (wp : World) (ep : EntityState),
        alget wp addr = some ep →
        ep.changedFields = rest → ep.dataFields = e.dataFields →
        ep.fields = e.fields → ep.idField = e.idField →
        ep.table = e.table → ep.entityId = e.entityId →
        (∀ r, (alget wp r).isSome = (alget w r).isSome) →
        ∃ w2 e2,
          entity_revert_loop wp addr (rest.map Prod.fst) = (.ok (), w2) ∧
          alget w2 addr = some e2 ∧
          e2.changedFields = [] ∧
          e2.dataFields = e.dataFields ∧
          e2.fields = e.fields ∧ e2.idField = e.idField ∧
          e2.table = e.table ∧ e2.entityId = e.entityId ∧
          (∀ p ∈ rest, ∀ tbl fld d r,
            alget e.fields p.1 = some (FSpec.foreign tbl fld d) →
            alget e.dataFields p.1 = some (Val.ref r) →
            hasBackLink w2 r addr = true) ∧
          (∀ t, hasBackLink wp t addr = true →
            (∀ q ∈ rest, ∀ r, (q : String × Val).2 = Val.ref r →
              (∃ t2 f2 d2, alget e.fields q.1 = some (FSpec.foreign t2 f2 d2)) →
              r ≠ t) →
            hasBackLink w2 t addr = true) := by
      intro wp ep hep hchp hdfp hfp hidp htbp heip hdom
      have hdatap : ∀ p ∈ rest, ∃ sp2, alget ep.fields p.1 = some sp2 ∧
          ∃ dv2, alget ep.dataFields p.1 = some dv2 ∧
            (∀ tbl fld d, sp2 = FSpec.foreign tbl fld d →
              (∃ r, p.2 = Val.ref r) ∧
              (dv2 = Val.none ∨ ∃ r2, dv2 = Val.ref r2 ∧
                (alget wp r2).isSome = true)) := by
        intro p hp
        obtain ⟨sp2, hsp2, dv2, hdv2, hrest⟩ := hdata p (List.mem_cons_of_mem _ hp)
        refine ⟨sp2, by rw [hfp]; exact hsp2, dv2, by rw [hdfp]; exact hdv2, ?_⟩
        intro tbl fld d hspf
        obtain ⟨hstag, hdvs⟩ := hrest tbl fld d hspf
        refine ⟨hstag, ?_⟩
        rcases hdvs with h | ⟨r2, hr2, hsome⟩
        · exact Or.inl h
        · exact Or.inr ⟨r2, hr2, by rw [hdom]; exact hsome⟩
      have hdisjp : ∀ p ∈ rest, ∀ q ∈ rest, p.1 ≠ q.1 →
          ∀ r1 r2, p.2 = Val.ref r1 →
            (∃ t1 f1 d1, alget ep.fields p.1 = some (FSpec.foreign t1 f1 d1)) →
            (∃ t2 f2 d2, alget ep.fields q.1 = some (FSpec.foreign t2 f2 d2)) →
            alget ep.dataFields q.1 = some (Val.ref r2) → r1 ≠ r2 := by
        intro p hp q hq hpq r1 r2 hst hf1 hf2 hdq
        rw [hfp] at hf1 hf2
        rw [hdfp] at hdq
        exact hdisj p (List.mem_cons_of_mem _ hp) q (List.mem_cons_of_mem _ hq)
          hpq r1 r2 hst hf1 hf2 hdq
      obtain ⟨w2, e2, hloop, he2, hc2, hd2, hf2, hi2, ht2, hei2, hbl2, hpres2⟩ :=
        ih wp ep hep hchp hndrest hdatap hdisjp
      refine ⟨w2, e2, hloop, he2, hc2, by rw [hd2, hdfp], by rw [hf2, hfp],
        by rw [hi2, hidp], by rw [ht2, htbp], by rw [hei2, heip], ?_, ?_⟩
      · intro p hp tbl fld d r hfpe hdpe
        refine hbl2 p hp tbl fld d r ?_ ?_
        · rw [hfp]
          exact hfpe
        · rw [hdfp]
          exact hdpe
      · intro t hbl hno
        refine hpres2 t hbl ?_
        intro q hq r hst hfor
        refine hno q hq r hst ?_
        obtain ⟨t2, f2, d2, hf⟩ := hfor
        rw [hfp] at hf
        exact ⟨t2, f2, d2, hf⟩
    cases hforK : sp.isForeign with
    | false =>
      have hstep := revert_step_nonforeign w addr k e v dv sp he hch hdv hsp hforK
      simp only [List.map_cons, entity_revert_loop, hstep]
      obtain ⟨w2, e2, hloop, he2, hc2, hd2, hf2, hi2, ht2, hei2, hbl2, hpres2⟩ :=
        happly (wmodify w addr (fun e2 =>
            { e2 with changedFields := alerase e2.changedFields k }))
          { e with changedFields := rest } he1 rfl rfl rfl rfl rfl rfl
          (fun r => isSome_alget_wmodify w addr _ r)
      refine ⟨w2, e2, hloop, he2, hc2, hd2, hf2, hi2, ht2, hei2, ?_, ?_⟩
      · intro p hp tbl fld d r hfpe hdpe
        rcases List.mem_cons.mp hp with hhead | htail
        · subst hhead
          rw [hsp] at hfpe
          have := Option.some.inj hfpe
          subst this
          simp [FSpec.isForeign] at hforK
        · exact hbl2 p htail tbl fld d r hfpe hdpe
      · intro t hbl hno
        refine hpres2 t ?_ ?_
        · exact hasBackLink_wmodify_preserved addr _ (fun e0 => ⟨rfl, rfl, rfl⟩) hbl
        · intro q hq r hst hfor
          exact hno q (List.mem_cons_of_mem _ hq) r hst hfor
    | true =>
      cases sp with
      | intF mn mx d0 => simp [FSpec.isForeign] at hforK
      | text d0 => simp [FSpec.isForeign] at hforK
      | enumText vs d0 => simp [FSpec.isForeign] at hforK
      | dateTime d0 => simp [FSpec.isForeign] at hforK
      | dateF d0 => simp [FSpec.isForeign] at hforK
      | foreign tbl fld d =>
        obtain ⟨⟨r1, hv⟩, hdvshape⟩ := hforprops tbl fld d rfl
        subst hv
        have hr1net : ∀ t, (∀ q ∈ (k, Val.ref r1) :: rest, ∀ r,
            (q : String × Val).2 = Val.ref r →
            (∃ t2 f2 d2, alget e.fields q.1 = some (FSpec.foreign t2 f2 d2)) →
            r ≠ t) → r1 ≠ t := by
          intro t hno
          exact hno (k, Val.ref r1) (List.mem_cons_self _ _) r1 rfl
            ⟨tbl, fld, d, hsp⟩
        rcases hdvshape with hdvn | ⟨r2, hdvr, hr2some⟩
        · subst hdvn
          have hstep := revert_step_foreign_none w addr k e tbl fld d r1 he hch hdv hsp
          simp only [List.map_cons, entity_revert_loop, hstep]
          obtain ⟨e1u, he1u, hc1u, hd1u, hf1u, hi1u, ht1u, hei1u⟩ :=
            alget_after_unlink (wmodify w addr (fun e2 =>
              { e2 with changedFields := alerase e2.changedFields k })) addr r1 addr he1
          obtain ⟨w2, e2, hloop, he2, hc2, hd2, hf2, hi2, ht2, hei2, hbl2, hpres2⟩ :=
            happly _ e1u he1u (by rw [hc1u]) (by rw [hd1u]) (by rw [hf1u])
              (by rw [hi1u]) (by rw [ht1u]) (by rw [hei1u])
              (fun r => by rw [isSome_alget_entity_unlink, isSome_alget_wmodify])
          refine ⟨w2, e2, hloop, he2, hc2, hd2, hf2, hi2, ht2, hei2, ?_, ?_⟩
          · intro p hp tbl2 fld2 d2 r hfpe hdpe
            rcases List.mem_cons.mp hp with hhead | htail
            · subst hhead
              rw [hdv] at hdpe
              cases Option.some.inj hdpe
            · exact hbl2 p htail tbl2 fld2 d2 r hfpe hdpe
          · intro t hbl hno
            refine hpres2 t ?_ ?_
            · refine hasBackLink_unlink_preserved r1 addr ?_ (hr1net t hno)
              exact hasBackLink_wmodify_preserved addr _ (fun e0 => ⟨rfl, rfl, rfl⟩) hbl
            · intro q hq r hst hfor
              exact hno q (List.mem_cons_of_mem _ hq) r hst hfor
        · subst hdvr
          have hstep := revert_step_foreign_ref w addr k e tbl fld d r1 r2 he hch hdv hsp
          simp only [List.map_cons, entity_revert_loop, hstep]
          obtain ⟨e1u, he1u, hc1u, hd1u, hf1u, hi1u, ht1u, hei1u⟩ :=
            alget_after_unlink (wmodify w addr (fun e2 =>
              { e2 with changedFields := alerase e2.changedFields k })) addr r1 addr he1
          obtain ⟨e1l, he1l, hc1l, hd1l, hf1l, hi1l, ht1l, hei1l⟩ :=
            alget_after_link _ addr r2 addr he1u
          obtain ⟨w2, e2, hloop, he2, hc2, hd2, hf2, hi2, ht2, hei2, hbl2, hpres2⟩ :=
            happly _ e1l he1l (by rw [hc1l, hc1u]) (by rw [hd1l, hd1u])
              (by rw [hf1l, hf1u]) (by rw [hi1l, hi1u]) (by rw [ht1l, ht1u])
              (by rw [hei1l, hei1u])
              (fun r => by
                rw [isSome_alget_entity_link, isSome_alget_entity_unlink,
                  isSome_alget_wmodify])
          have hw3bl : hasBackLink (entity_link (entity_unlink (wmodify w addr
              (fun e2 => { e2 with changedFields := alerase e2.changedFields k }))
              r1 addr) r2 addr) r2 addr = true := by
            refine hasBackLink_of_link _ r2 addr ?_ ?_
            · rw [isSome_alget_entity_unlink, isSome_alget_wmodify]
              exact hr2some
            · rw [isSome_alget_entity_unlink, isSome_alget_wmodify, he]
              rfl
          have hpreshyp : ∀ q ∈ rest, ∀ r, (q : String × Val).2 = Val.ref r →
              (∃ t2 f2 d2, alget e.fields q.1 = some (FSpec.foreign t2 f2 d2)) →
              r ≠ r2 := by
            intro q hq r hst hfor
            obtain ⟨t2, f2, d2, hf⟩ := hfor
            exact hdisj q (List.mem_cons_of_mem _ hq) (k, Val.ref r1)
              (List.mem_cons_self _ _) (hqnek q hq) r r2 hst ⟨t2, f2, d2, hf⟩
              ⟨tbl, fld, d, hsp⟩ hdv
          refine ⟨w2, e2, hloop, he2, hc2, hd2, hf2, hi2, ht2, hei2, ?_, ?_⟩
          · intro p hp tbl2 fld2 d2 r hfpe hdpe
            rcases List.mem_cons.mp hp with hhead | htail
            · subst hhead
              rw [hdv] at hdpe
              have hrr : Val.ref r2 = Val.ref r := Option.some.inj hdpe
              cases hrr
              exact hpres2 r2 hw3bl hpreshyp
            · exact hbl2 p htail tbl2 fld2 d2 r hfpe hdpe
          · intro t hbl hno
            refine hpres2 t ?_ ?_
            · refine hasBackLink_link_preserved r2 addr ?_ (Or.inr rfl)
              refine hasBackLink_unlink_preserved r1 addr ?_ (hr1net t hno)
              exact hasBackLink_wmodify_preserved addr _ (fun e0 => ⟨rfl, rfl, rfl⟩) hbl
            · intro q hq r hst hfor
              exact hno q (List.mem_cons_of_mem _ hq) r hst hfor

/-- Whether a value is an entity reference. -/
def Val.isRef : Val → Bool
  | .ref _ => true
  | _ => false

/-- Decidable well-formedness of an entity's staged edits, as maintained by
`__setitem__`: staged keys are distinct dict keys; every staged field
exists in the schema with a committed value; a staged foreign field holds
an entity reference and its committed value is `None` or a live entity
reference; and no staged foreign target coincides with the committed
target of a different staged foreign field (guaranteed in this schema
because distinct foreign fields reference distinct entity classes). -/
def revertHypsB (w : World) (e : EntityState) : Bool :=
  decide (e.changedFields.map Prod.fst).Nodup &&
  e.changedFields.all (fun p =>
    match alget e.fields p.1, alget e.dataFields p.1 with
    | some (.foreign _ _ _), some dv =>
      p.2.isRef &&
      (match dv with
       | .none => true
       | .ref r => (alget w r).isSome
       | _ => false)
    | some _, some _ => true
    | _, _ => false) &&
  e.changedFields.all (fun p => e.changedFields.all (fun q =>
    p.1 == q.1 ||
    (match alget e.fields p.1, p.2, alget e.fields q.1,
        alget e.dataFields q.1 with
     | some (.foreign _ _ _), .ref r1, some (.foreign _ _ _),
       some (.ref r2) => r1 != r2
     | _, _, _, _ => true)))

/-- C8: on an entity whose staged edits are well formed (`revertHypsB`),
`revert()` succeeds, empties the dirty set, leaves the committed values
untouched so that every non-id field reads its pre-edit committed value,
and re-establishes the back-link from each reverted foreign field's
committed target.  (The model iterates the dirty set in staging order; the
source iterates a Python set of the same keys.) -/
theorem revert_restores_committed_state
    (w : World) (addr : Nat) (e : EntityState)
    (he : alget w addr = some e)
    (hok : revertHypsB w e = true) :
    ∃ w2 e2, entity_revert w addr = (.ok (), w2) ∧ alget w2 addr = some e2 ∧
      e2.changedFields = [] ∧ e2.dataFields = e.dataFields ∧
      (∀ name, name ≠ e.idField →
        entity_getitem w2 addr name =
          (match alget e.dataFields name with
           | some v => .ok v
           | Option.none => .error (.keyError name))) ∧
      (∀ p ∈ e.changedFields, ∀ tbl fld d r,
        alget e.fields p.1 = some (FSpec.foreign tbl fld d) →
        alget e.dataFields p.1 = some (Val.ref r) →
        hasBackLink w2 r addr = true) := by
  unfold revertHypsB at hok
  simp only [Bool.and_eq_true, List.all_eq_true, decide_eq_true_eq] at hok
  obtain ⟨⟨hnd, hdataB⟩, hdisjB⟩ := hok
  have hdata : ∀ p ∈ e.changedFields, ∃ sp, alget e.fields p.1 = some sp ∧
      ∃ dv, alget e.dataFields p.1 = some dv ∧
        (∀ tbl fld d, sp = FSpec.foreign tbl fld d →
          (∃ r, p.2 = Val.ref r) ∧
          (dv = Val.none ∨ ∃ r2, dv = Val.ref r2 ∧
            (alget w r2).isSome = true)) := by
    intro p hp
    have h := hdataB p hp
    cases hsp : alget e.fields p.1 with
    | none => rw [hsp] at h; simp at h
    | some sp =>
      rw [hsp] at h
      cases hdv : alget e.dataFields p.1 with
      | none =>
        rw [hdv] at h
        cases sp <;> simp at h
      | some dv =>
        rw [hdv] at h
        refine ⟨sp, rfl, dv, rfl, ?_⟩
        intro tbl fld d hspf
        subst hspf
        simp only [Bool.and_eq_true] at h
        obtain ⟨href, hshape⟩ := h
        constructor
        · cases hpv : p.2 <;> rw [hpv] at href <;> simp [Val.isRef] at href
          rename_i r
          exact ⟨r, rfl⟩
        · cases hdvc : dv <;> rw [hdvc] at hshape <;> simp at hshape
          · exact Or.inl rfl
          · rename_i r
            exact Or.inr ⟨r, rfl, hshape⟩
  have hdisj : ∀ p ∈ e.changedFields, ∀ q ∈ e.changedFields, p.1 ≠ q.1 →
      ∀ r1 r2, p.2 = Val.ref r1 →
        (∃ t1 f1 d1, alget e.fields p.1 = some (FSpec.foreign t1 f1 d1)) →
        (∃ t2 f2 d2, alget e.fields q.1 = some (FSpec.foreign t2 f2 d2)) →
        alget e.dataFields q.1 = some (Val.ref r2) → r1 ≠ r2 := by
    intro p hp q hq hpq r1 r2 hst hf1 hf2 hdq
    have h := hdisjB p hp q hq
    obtain ⟨t1, f1, d1, hf1e⟩ := hf1
    obtain ⟨t2, f2, d2, hf2e⟩ := hf2
    rw [hf1e, hf2e, hst, hdq] at h
    simp only [Bool.or_eq_true, beq_iff_eq, bne_iff_ne] at h
    rcases h with h | h
    · exact absurd h hpq
    · exact h
  obtain ⟨w2, e2, hloop, he2, hc2, hd2, hf2, hi2, ht2, hei2, hbl2, _⟩ :=
    revert_loop_spec addr e.changedFields w e he rfl hnd hdata hdisj
  have hdirty : entity_dirty w addr = e.changedFields.map Prod.fst := by
    unfold entity_dirty
    rw [he]
  refine ⟨w2, e2, ?_, he2, hc2, hd2, ?_, hbl2⟩
  · unfold entity_revert
    rw [hdirty]
    exact hloop
  · intro name hn
    simp only [entity_getitem, he2]
    rw [hi2, if_neg hn, hc2, hd2]
    rfl

/-- A Stage object with a staged foreign-key edit (`div_id` repointed from
the Division at address 1 to the one at address 3) and a staged text
edit. -/
def stageStaged : EntityState := {
  table := "stage", idField := "stg_id", readOnly := [],
  fields := stageFields, entityId := some (.int 7),
  dataFields := [("div_id", .ref 1), ("stg_name", .str "s"),
    ("stg_num", .int 2), ("stg_order", .int 1)],
  changedFields := [("div_id", .ref 3), ("stg_name", .str "t")],
  deleteFlag := false,
  references := [] }

/-- A second committed Division at address 3 whose references record the
staged link from the Stage at address 2. -/
def divState3 : EntityState := {
  table := "division", idField := "div_id", readOnly := ["event_id"],
  fields := divisionFields, entityId := some (.int 4),
  dataFields := [("event_id", .ref 0), ("div_name", .str "d2"),
    ("div_num", .int 2), ("start_date", .date "2024-06-01"),
    ("end_date", .date "2024-06-02")],
  changedFields := [], deleteFlag := false,
  references := [("stage", [(("stage", some (.int 7), Option.none), 2)])] }

/-- Test world for C8: Divisions at 1 and 3, the staged Stage at 2. -/
def wRevert : World := [(1, divState), (3, divState3), (2, stageStaged)]

/-- Witness for C8 at the concrete staged Stage. -/
theorem revert_restores_committed_state_witness :
    alget wRevert 2 = some stageStaged ∧
    revertHypsB wRevert stageStaged = true ∧
    (∃ w2 e2, entity_revert wRevert 2 = (.ok (), w2) ∧
      alget w2 2 = some e2 ∧
      e2.changedFields = [] ∧ e2.dataFields = stageStaged.dataFields ∧
      (∀ name, name ≠ stageStaged.idField →
        entity_getitem w2 2 name =
          (match alget stageStaged.dataFields name with
           | some v => .ok v
           | Option.none => .error (.keyError name))) ∧
      (∀ p ∈ stageStaged.changedFields, ∀ tbl fld d r,
        alget stageStaged.fields p.1 = some (FSpec.foreign tbl fld d) →
        alget stageStaged.dataFields p.1 = some (Val.ref r) →
        hasBackLink w2 r 2 = true)) := by
  have h1 : alget wRevert 2 = some stageStaged := rfl
  have h2 : revertHypsB wRevert stageStaged = true := by decide
  exact ⟨h1, h2, revert_restores_committed_state wRevert 2 stageStaged h1 h2⟩

/-! ### Statement builder (`entity.py` EntityDbValues / Statement, C3/C4) -/

/-- A positional statement argument: a plain storage value, or the deferred
zero-argument resolver closure that `ForeignFieldSpec.to_db` returns for a
still-pending target (the closure captures the target entity, so it is
identified here by the target's address). -/
inductive DbArg where
  | val (v : Val)
  | deferred (target : Nat)
deriving DecidableEq, Repr

/-- `spec.to_db(value, entity=ent)` as called by the storage view.
`DateTimeFieldSpec.to_db` declares `(self, db, entity, value)`, so this
call binds `value` to `db` and leaves `value` missing: `TypeError`.
`ForeignFieldSpec.to_db` returns the target's encoded id when known (the
id specs of all referenced classes are `IntFieldSpec`, whose `to_db` is
the identity) and a deferred resolver otherwise; on a non-entity value
(`None` included) `value.entity_id` raises `AttributeError`. -/
def fspec_to_db (spec : FSpec) (w : World) (value : Val) : Except PyErr DbArg :=
  match spec with
  | .intF _ _ _ => .ok (.val value)
  | .text _ => .ok (.val value)
  | .enumText _ _ =>
    match value with
    | .enum v => .ok (.val (.str v))
    | _ => .error (.attributeError "object has no attribute value")
  | .dateTime _ =>
    .error (.typeError "to_db missing required positional argument value")
  | .dateF _ =>
    match value with
    | .date iso => .ok (.val (.str iso))
    | _ => .error (.attributeError "object has no attribute isoformat")
  | .foreign _ _ _ =>
    match value with
    | .ref r =>
      match alget w r with
      | some tgt =>
        match tgt.entityId with
        | some eid => .ok (.val eid)
        | Option.none => .ok (.deferred r)
      | Option.none => .error (.attributeError "object has no attribute entity_id")
    | _ => .error (.attributeError "object has no attribute entity_id")

/-- `EntityDbValues.__getitem__`: read the field and convert with
`spec.to_db`. -/
def dbvalue_getitem (w : World) (addr : Nat) (name : String) : Except PyErr DbArg :=
  match alget w addr with
  | Option.none => .error (.keyError "no such object")
  | some e =>
    match entity_getitem w addr name with
    | .error err => .error err
    | .ok value =>
      match alget e.fields name with
      | Option.none => .error (.keyError name)
      | some spec => fspec_to_db spec w value

/-- `Action` (`entity.py`). -/
inductive Action where
  | INSERT
  | UPDATE
  | DELETE
deriving DecidableEq, Repr

/-- A built `Statement`: the SQL text, the stored (unevaluated) positional
arguments, and the entities whose bound methods serve as the rowid and
commit callbacks. -/
structure Stmt where
  statement : String
  arguments : List DbArg
  rowid_entity : Option Nat
  commit_entity : Option Nat
deriving DecidableEq, Repr

/-- The dict case of `compile_where` as reached from `Statement.__init__`:
at that call site every criteria value is a scalar (or resolver), so each
field compiles through the implicit-equality branch of `_compile_op`. -/
def compile_where_scalars (kvs : List (String × DbArg)) : String × List DbArg :=
  (joinSep " AND " (kvs.map (fun p => "(" ++ p.1 ++ " = ?)")), kvs.map Prod.snd)

/-- `Statement.__init__` (`entity.py` lines 668-724): validate the
values/criteria combination (`zip(*d.items())` on an empty dict raises
`ValueError`; a missing `values` for INSERT/UPDATE would leave `v_fields`
unbound), build the verb-specific fragment and append the compiled WHERE
clause. -/
def Statement_init (action : Action) (table : String)
    (values criteria : Option (List (String × DbArg)))
    (commit_entity rowid_entity : Option Nat) : Except PyErr Stmt :=
  match values, action with
  | some _, .DELETE => .error (.valueError "values must be None for action=DELETE")
  | some [], _ => .error (.valueError "not enough values to unpack")
  | _, _ =>
    match criteria, action with
    | some _, .INSERT => .error (.valueError "criteria must be None for action=INSERT")
    | some [], _ => .error (.valueError "not enough values to unpack")
    | Option.none, .UPDATE => .error (.valueError "criteria must NOT be None for action=UPDATE")
    | Option.none, .DELETE => .error (.valueError "criteria must NOT be None for action=DELETE")
    | _, _ =>
      match action, values with
      | .INSERT, some vs =>
        let base := "INSERT INTO " ++ table ++ " (" ++
          joinSep ", " (vs.map Prod.fst) ++ ") VALUES (" ++
          joinSep ", " (vs.map (fun _ => "?")) ++ ")"
        .ok { statement := base ++ ";", arguments := vs.map Prod.snd,
              rowid_entity := rowid_entity, commit_entity := commit_entity }
      | .INSERT, Option.none => .error (.nameError "v_fields is not defined")
      | .UPDATE, some vs =>
        let base := "UPDATE " ++ table ++ " SET " ++
          joinSep ", " (vs.map (fun p => p.1 ++ " = ?"))
        match criteria with
        | some cs =>
          let wc := compile_where_scalars cs
          .ok { statement := base ++ " WHERE " ++ wc.1 ++ ";",
                arguments := vs.map Prod.snd ++ wc.2,
                rowid_entity := rowid_entity, commit_entity := commit_entity }
        | Option.none => .error (.valueError "criteria must NOT be None for action=UPDATE")
      | .UPDATE, Option.none => .error (.nameError "v_fields is not defined")
      | .DELETE, _ =>
        match criteria with
        | some cs =>
          let wc := compile_where_scalars cs
          .ok { statement := "DELETE FROM " ++ table ++ " WHERE " ++ wc.1 ++ ";",
                arguments := wc.2,
                rowid_entity := rowid_entity, commit_entity := commit_entity }
        | Option.none => .error (.valueError "criteria must NOT be None for action=DELETE")

/-- The `changes` dict of the UPDATE branch of `EntityDbValues.statement`:
`spec.to_db(changed[name])` for every staged field, in schema order. -/
def updateChanges (w : World) (changed : List (String × Val)) :
    List (String × FSpec) → Except PyErr (List (String × DbArg))
  | [] => .ok []
  | (name, spec) :: rest =>
    match alget changed name with
    | Option.none => updateChanges w changed rest
    | some v =>
      match fspec_to_db spec w v with
      | .error e => .error e
      | .ok a =>
        match updateChanges w changed rest with
        | .error e => .error e
        | .ok restv => .ok ((name, a) :: restv)

/-- The `values` dict of the INSERT branch of `EntityDbValues.statement`:
`self[name]` through the storage view for every non-identity field, in
schema order. -/
def insertValues (w : World) (addr : Nat) (idField : String) :
    List (String × FSpec) → Except PyErr (List (String × DbArg))
  | [] => .ok []
  | (name, _) :: rest =>
    if name = idField then insertValues w addr idField rest
    else
      match dbvalue_getitem w addr name with
      | .error e => .error e
      | .ok a =>
        match insertValues w addr idField rest with
        | .error e => .error e
        | .ok restv => .ok ((name, a) :: restv)

/-- `EntityDbValues.statement` (`entity.py` lines 377-417).  The DELETE and
UPDATE branches call `Statement(...)` with the keyword argument `where=`,
which `Statement.__init__` does not accept: binding the call raises
`TypeError` (after the argument expressions — `changes` and `self.where` —
are evaluated). -/
def dbvalues_statement (w : World) (addr : Nat) : Except PyErr (Option Stmt) :=
  match alget w addr with
  | Option.none => .error (.keyError "no such object")
  | some ent =>
    if ent.deleteFlag then
      if ent.entityId.isSome then
        .error (.typeError "Statement() got an unexpected keyword argument where")
      else .ok Option.none
    else if ent.entityId.isSome then
      match updateChanges w ent.changedFields ent.fields with
      | .error e => .error e
      | .ok _ =>
        .error (.typeError "Statement() got an unexpected keyword argument where")
    else
      match insertValues w addr ent.idField ent.fields with
      | .error e => .error e
      | .ok values =>
        match Statement_init .INSERT ent.table (some values) Option.none
            (some addr) (some addr) with
        | .error e => .error e
        | .ok st => .ok (some st)

/-- `Statement._get_value` at `display=False`: a callable argument — the
`_get_id` resolver of `ForeignFieldSpec.to_db` — is invoked and returns
the target's now-known id, or raises `ValueError` if it is still
unknown. -/
def resolve_arg (w : World) (a : DbArg) (display : Bool) : Except PyErr Val :=
  match a with
  | .val v => .ok v
  | .deferred r =>
    match alget w r with
    | Option.none => .error (.attributeError "object has no attribute entity_id")
    | some tgt =>
      match tgt.entityId with
      | some eid => .ok eid
      | Option.none =>
        if display then .ok (.str "<placeholder>")
        else .error (.valueError "ID not yet known")

/-- The loop of `Statement._get_arguments(display=False)`, backing the
`Statement.arguments` property: resolve every stored argument. -/
def resolve_args (w : World) : List DbArg → Except PyErr (List Val)
  | [] => .ok []
  | a :: rest =>
    match resolve_arg w a false with
    | .error e => .error e
    | .ok v =>
      match resolve_args w rest with
      | .error e => .error e
      | .ok vs => .ok (v :: vs)

/-- A pending Stage (no entity id, not marked deleted): the INSERT case of
`EntityDbValues.statement`. -/
def stagePendingIns : EntityState := {
  table := "stage", idField := "stg_id", readOnly := [],
  fields := stageFields, entityId := Option.none,
  dataFields := [("div_id", .ref 1), ("stg_name", .str "s"),
    ("stg_num", .int 2), ("stg_order", .int 1)],
  changedFields := [], deleteFlag := false, references := [] }

/-- A persistent Stage marked for deletion: the DELETE case. -/
def stageDelState : EntityState := {
  table := "stage", idField := "stg_id", readOnly := [],
  fields := stageFields, entityId := some (.int 7),
  dataFields := [("div_id", .ref 1), ("stg_name", .str "s"),
    ("stg_num", .int 2), ("stg_order", .int 1)],
  changedFields := [], deleteFlag := true, references := [] }

/-- A pending Stage marked for deletion: the no-statement case. -/
def stagePendingDel : EntityState := {
  table := "stage", idField := "stg_id", readOnly := [],
  fields := stageFields, entityId := Option.none,
  dataFields := [("div_id", .ref 1), ("stg_name", .str "s"),
    ("stg_num", .int 2), ("stg_order", .int 1)],
  changedFields := [], deleteFlag := true, references := [] }

/-- Test world for the statement builder: the committed Division at 1 and
the three Stage variants. -/
def wStmt : World :=
  [(1, divState), (5, stagePendingIns), (6, stageDelState), (7, stagePendingDel)]

/-- C3: of the four verb cases of `EntityDbValues.statement`, only the two
pending-entity cases behave as claimed.  A pending entity marked deleted
yields no statement, and a pending entity yields the INSERT over all
non-identity fields in schema order; but the DELETE branch (persistent,
deleted) and the UPDATE branch (persistent, staged edits) pass the keyword
argument `where=` to `Statement()`, whose `__init__` has no such
parameter, so both raise `TypeError` instead of returning the claimed
DELETE/UPDATE statements keyed on the entity's own persistent id. -/
theorem dbvalues_statement_where_kwarg_bug :
    dbvalues_statement wStmt 7 = .ok Option.none ∧
    dbvalues_statement wStmt 5 = .ok (some {
      statement :=
        "INSERT INTO stage (div_id, stg_name, stg_num, stg_order) VALUES (?, ?, ?, ?);",
      arguments := [.val (.int 3), .val (.str "s"), .val (.int 2), .val (.int 1)],
      rowid_entity := some 5, commit_entity := some 5 }) ∧
    dbvalues_statement wStmt 6 =
      .error (.typeError "Statement() got an unexpected keyword argument where") ∧
    dbvalues_statement wRevert 2 =
      .error (.typeError "Statement() got an unexpected keyword argument where") := by
  refine ⟨rfl, rfl, rfl, rfl⟩

/-- A pending Division (no entity id yet). -/
def divPending : EntityState := {
  table := "division", idField := "div_id", readOnly := ["event_id"],
  fields := divisionFields, entityId := Option.none,
  dataFields := [("event_id", .ref 0), ("div_name", .str "p"),
    ("div_num", .int 9), ("start_date", .date "2024-07-01"),
    ("end_date", .date "2024-07-02")],
  changedFields := [], deleteFlag := false, references := [] }

/-- A pending Stage whose committed `div_id` is the pending Division at
address 20. -/
def stagePendingFk : EntityState := {
  table := "stage", idField := "stg_id", readOnly := [],
  fields := stageFields, entityId := Option.none,
  dataFields := [("div_id", .ref 20), ("stg_name", .str "u"),
    ("stg_num", .int 4), ("stg_order", .int 2)],
  changedFields := [], deleteFlag := false, references := [] }

/-- Test world for deferred resolution: pending Division at 20, pending
Stage referencing it at 21. -/
def wPend : World := [(20, divPending), (21, stagePendingFk)]

/-- `wPend` after the Division's insert has assigned it id 11. -/
def wPendAssigned : World :=
  alset wPend 20 { divPending with entityId := some (.int 11) }

/-- The Stage's pending INSERT statement as stored: its first argument is
the deferred resolver for the pending Division. -/
def stmtPendingFk : Stmt := {
  statement :=
    "INSERT INTO stage (div_id, stg_name, stg_num, stg_order) VALUES (?, ?, ?, ?);",
  arguments := [.deferred 20, .val (.str "u"), .val (.int 4), .val (.int 2)],
  rowid_entity := some 21, commit_entity := some 21 }

/-- C4 counterexample: with the pending Division E (address 20) assigned
as the pending Stage F's (address 21) foreign field, F's INSERT statement
does store the deferred resolver — but reading the public
`Statement.arguments` property invokes every stored resolver with
`display=False`, so while E is still pending, it raises `ValueError`
instead of yielding the resolver "not … an error" as the claim states. -/
theorem deferred_arguments_property_counterexample :
    dbvalues_statement wPend 21 = .ok (some stmtPendingFk) ∧
    DbArg.deferred 20 ∈ stmtPendingFk.arguments ∧
    resolve_args wPend stmtPendingFk.arguments =
      .error (.valueError "ID not yet known") := by
  refine ⟨rfl, by decide, rfl⟩

theorem alget_mem {κ ν : Type _} [DecidableEq κ] :
    ∀ (l : List (κ × ν)) (k : κ) (v : ν), alget l k = some v → (k, v) ∈ l := by
  intro l
  induction l with
  | nil => intro k v h; cases h
  | cons p rest ih =>
    intro k v h
    obtain ⟨k2, v2⟩ := p
    simp only [alget] at h
    by_cases hk : k2 = k
    · rw [if_pos hk] at h
      cases h
      subst hk
      exact List.mem_cons_self _ _
    · rw [if_neg hk] at h
      exact List.mem_cons_of_mem _ (ih k v h)

theorem insertValues_mem (w : World) (addr : Nat) (idf name : String) (a : DbArg)
    (hga : dbvalue_getitem w addr name = .ok a) (hname : name ≠ idf) :
    ∀ (fs : List (String × FSpec)) (vs : List (String × DbArg)) (spec : FSpec),
      (name, spec) ∈ fs → insertValues w addr idf fs = .ok vs →
      (name, a) ∈ vs := by
  intro fs
  induction fs with
  | nil => intro vs spec h; cases h
  | cons p rest ih =>
    intro vs spec hmem hins
    obtain ⟨pn, psp⟩ := p
    simp only [insertValues] at hins
    by_cases hpn : pn = idf
    · rw [if_pos hpn] at hins
      rcases List.mem_cons.mp hmem with heq | hr
      · obtain ⟨h1, _⟩ := Prod.mk.inj heq
        exact absurd (h1.trans hpn) hname
      · exact ih vs spec hr hins
    · rw [if_neg hpn] at hins
      rcases List.mem_cons.mp hmem with heq | hr
      · obtain ⟨h1, _⟩ := Prod.mk.inj heq
        subst h1
        rw [hga] at hins
        cases hrest : insertValues w addr idf rest with
        | error e => rw [hrest] at hins; cases hins
        | ok restv =>
          rw [hrest] at hins
          cases hins
          exact List.mem_cons_self _ _
      · cases hg : dbvalue_getitem w addr pn with
        | error e => rw [hg] at hins; cases hins
        | ok a2 =>
          rw [hg] at hins
          cases hrest : insertValues w addr idf rest with
          | error e => rw [hrest] at hins; cases hins
          | ok restv =>
            rw [hrest] at hins
            cases hins
            exact List.mem_cons_of_mem _ (ih restv spec hr hrest)

/-- C4 (amended): for a pending target E assigned in F's foreign field,
`ForeignFieldSpec.to_db` through the storage view yields the deferred
resolver (not a concrete id), F's pending INSERT statement stores that
resolver among its positional arguments, and the resolver — as invoked by
statement execution with `display=False` — returns E's id once it is
assigned and raises `ValueError` while it is not.  (The public `arguments`
property is excluded: it invokes the resolvers, so reading it while E is
pending raises rather than yielding the resolver.) -/
theorem deferred_foreign_resolution
    (w : World) (addr eAddr : Nat) (name tbl fld : String) (d : Val)
    (e tgt : EntityState)
    (he : alget w addr = some e)
    (hsp : alget e.fields name = some (.foreign tbl fld d))
    (hval : entity_getitem w addr name = .ok (.ref eAddr))
    (htgt : alget w eAddr = some tgt)
    (hpend : tgt.entityId = Option.none)
    (hid : e.entityId = Option.none) (hdel : e.deleteFlag = false)
    (hname : name ≠ e.idField) :
    dbvalue_getitem w addr name = .ok (.deferred eAddr) ∧
    (∀ st, dbvalues_statement w addr = .ok (some st) →
      DbArg.deferred eAddr ∈ st.arguments) ∧
    (∀ (w2 : World) (tgt2 : EntityState), alget w2 eAddr = some tgt2 →
      (∀ eid, tgt2.entityId = some eid →
        resolve_arg w2 (.deferred eAddr) false = .ok eid) ∧
      (tgt2.entityId = Option.none →
        resolve_arg w2 (.deferred eAddr) false =
          .error (.valueError "ID not yet known"))) := by
  have hget : dbvalue_getitem w addr name = .ok (.deferred eAddr) := by
    simp only [dbvalue_getitem, he, hval, hsp, fspec_to_db, htgt, hpend]
  refine ⟨hget, ?_, ?_⟩
  · intro st hst
    simp only [dbvalues_statement, he, hdel, if_false, hid, Option.isSome_none,
      Bool.false_eq_true, if_false] at hst
    cases hins : insertValues w addr e.idField e.fields with
    | error err => rw [hins] at hst; cases hst
    | ok vs =>
      rw [hins] at hst
      have hmemv : (name, DbArg.deferred eAddr) ∈ vs :=
        insertValues_mem w addr e.idField name (.deferred eAddr) hget hname
          e.fields vs (.foreign tbl fld d) (alget_mem e.fields name _ hsp) hins
      cases vs with
      | nil => cases hmemv
      | cons v0 vrest =>
        simp only [Statement_init] at hst
        cases hst
        simpa using List.mem_map_of_mem Prod.snd hmemv
  · intro w2 tgt2 htgt2
    constructor
    · intro eid heid
      simp only [resolve_arg, htgt2, heid]
    · intro hnone
      simp only [resolve_arg, htgt2, hnone]
      rfl

/-- Witness for C4 at the pending Division / pending Stage pair: the
storage view yields the resolver, the stored INSERT arguments contain it,
and the resolver succeeds after the Division receives id 11 and fails
while it is pending. -/
theorem deferred_foreign_resolution_witness :
    dbvalue_getitem wPend 21 "div_id" = .ok (.deferred 20) ∧
    DbArg.deferred 20 ∈ stmtPendingFk.arguments ∧
    resolve_arg wPendAssigned (.deferred 20) false = .ok (.int 11) ∧
    resolve_arg wPend (.deferred 20) false =
      .error (.valueError "ID not yet known") := by
  obtain ⟨h1, h2, h3⟩ := deferred_foreign_resolution wPend 21 20 "div_id"
    "division" "div_id" .none stagePendingFk divPending rfl rfl rfl rfl rfl
    rfl rfl (by decide)
  exact ⟨h1, h2 stmtPendingFk rfl,
    (h3 wPendAssigned { divPending with entityId := some (.int 11) } rfl).1
      (.int 11) rfl,
    (h3 wPend divPending rfl).2 rfl⟩

/-! ### Fetch path (`Entity.select`, `Database.fetch`, `Entity._refresh`, C5) -/

/-- The module scope of `entity.py` binds only `compile_where` (imported
from `where.py`); the name `compile_criteria` that `Entity.select` calls
is bound nowhere in the program, so looking it up yields nothing and the
call raises `NameError`. -/
def compile_criteria : Option (PyVal → Except PyErr (String × List PyVal)) :=
  Option.none

def insertSorted (x : String) : List String → List String
  | [] => [x]
  | y :: ys => if x ≤ y then x :: y :: ys else y :: insertSorted x ys

/-- `sorted(...)` over field names. -/
def sortStrings : List String → List String
  | [] => []
  | x :: xs => insertSorted x (sortStrings xs)

/-- `Entity.select`: evaluate `compile_criteria(criteria)` — `NameError`,
since the name is unbound — and otherwise interpolate
`"SELECT %s FROM %s WHERE %s;" % (table, fields, where_sql)`, which as
written puts the table name in the select list and the sorted field names
in the FROM clause. -/
def entity_select (table : String) (fieldNames : List String) (criteria : PyVal) :
    Except PyErr (String × List PyVal) :=
  match compile_criteria with
  | Option.none => .error (.nameError "name compile_criteria is not defined")
  | some f =>
    match f criteria with
    | .error e => .error e
    | .ok r =>
      .ok ("SELECT " ++ table ++ " FROM " ++
        joinSep ", " (sortStrings fieldNames) ++ " WHERE " ++ r.1 ++ ";", r.2)

/-- `Entity._refresh` after `_decode_row`: pop the id field out of the
decoded row (`KeyError` is converted to `ValueError`), then compare it
against `this.entity_id` — the name `this` is bound nowhere, so the
comparison raises `NameError` and the `self._data_fields.update(data)`
line is never reached for any row. -/
def entity_refresh (e : EntityState) (decoded : List (String × Val)) :
    Except PyErr EntityState :=
  match alget decoded e.idField with
  | Option.none => .error (.valueError "No ID field in row")
  | some _ => .error (.nameError "name this is not defined")

/-- C5: the fetch path is unreachable as claimed.  `Entity.select` — the
function `Database._fetch` uses to build its query — raises `NameError`
on every input because it calls the unbound name `compile_criteria` (and
its format string, were it reached, swaps the table into the select list
and the field names into FROM); and `Entity._refresh` raises on every
row — `ValueError` without an id field, otherwise `NameError` on the
unbound name `this` — so a cached entity's committed fields are never
refreshed in place. -/
theorem fetch_select_refresh_name_errors :
    (∀ (table : String) (fieldNames : List String) (criteria : PyVal),
      entity_select table fieldNames criteria =
        .error (.nameError "name compile_criteria is not defined")) ∧
    (∀ (e : EntityState) (decoded : List (String × Val)),
      entity_refresh e decoded = .error (.valueError "No ID field in row") ∨
      entity_refresh e decoded = .error (.nameError "name this is not defined")) ∧
    compile_criteria = Option.none := by
  refine ⟨fun table fieldNames criteria => rfl, ?_, rfl⟩
  intro e decoded
  unfold entity_refresh
  cases alget decoded e.idField with
  | none => exact Or.inl rfl
  | some v => exact Or.inr rfl

/-! ### Commit protocol (`Database.commit`, `Entity._set_entity_id`, C1/C9) -/

/-- A statement as consumed by `Database.commit`, over an abstract backing
store `σ` (the SQLite database): `exec` is
`cur.execute(st.statement, st.arguments)` — argument resolution included —
which either transforms the store or raises; `lastrowid` is the id the
insert generates; `rowidEnt` identifies the entity whose bound
`_set_entity_id` is the statement's rowid callback (`none` when there is
no callback); `commitCb` is the optional commit-notification callback. -/
structure StmtC (σ : Type) where
  exec : σ → Except PyErr σ
  lastrowid : Val
  rowidEnt : Option Nat
  commitCb : Option (World → Except PyErr World)

/-- `Entity._set_entity_id`: assign or clear the entity's id (the id
specs of every entity type are `IntFieldSpec`, whose `from_db` is the
identity, so the assignment itself cannot raise). -/
def set_entity_id (w : World) (addr : Nat) (rowId : Option Val) : World :=
  wmodify w addr (fun e => { e with entityId := rowId })

/-- Outcome of the statement loop inside `Database.commit`: every
statement executed, or one raised — leaving the partially-updated store
and world and the creations (statements whose rowid callback already
fired) recorded up to that point. -/
inductive ExecOutcome (σ : Type) where
  | ok (store : σ) (w : World) (creations : List (StmtC σ))
  | failed (err : PyErr) (store : σ) (w : World) (creations : List (StmtC σ))

/-- The `for statement in statements` loop of `Database.commit`: execute,
fire the rowid callback with `cur.lastrowid`, and append to `creations`
only after the callback returns. -/
def execLoop {σ : Type} (store : σ) (w : World) (creations : List (StmtC σ)) :
    List (StmtC σ) → ExecOutcome σ
  | [] => .ok store w creations
  | st :: rest =>
    match st.exec store with
    | .error e => .failed e store w creations
    | .ok store2 =>
      match st.rowidEnt with
      | Option.none => execLoop store2 w creations rest
      | some addr =>
        execLoop store2 (set_entity_id w addr (some st.lastrowid))
          (creations ++ [st]) rest

/-- The rollback loop of `Database.commit`: re-invoke every already-fired
rowid callback with `None` (exceptions logged and swallowed; the modelled
`_set_entity_id` is total). -/
def rollback_cbs {σ : Type} (w : World) : List (StmtC σ) → World
  | [] => w
  | st :: rest =>
    match st.rowidEnt with
    | some addr => rollback_cbs (set_entity_id w addr Option.none) rest
    | Option.none => rollback_cbs w rest

/-- The post-commit loop of `Database.commit`: run every statement's
commit-notification callback; one that raises is logged and swallowed
(its world update discarded) and the loop continues. -/
def run_commit_cbs {σ : Type} (w : World) : List (StmtC σ) → World
  | [] => w
  | st :: rest =>
    match st.commitCb with
    | Option.none => run_commit_cbs w rest
    | some cb =>
      match cb w with
      | .error _ => run_commit_cbs w rest
      | .ok w2 => run_commit_cbs w2 rest

/-- `Database.commit`: run the loop; on failure roll the store back to its
transaction-start state, re-invoke fired rowid callbacks with `None` and
re-raise the original exception; on success commit and run the
notification callbacks. -/
def db_commit {σ : Type} (store : σ) (w : World) (stmts : List (StmtC σ)) :
    Except PyErr Unit × σ × World :=
  match execLoop store w [] stmts with
  | .failed e _ wf creations => (.error e, store, rollback_cbs wf creations)
  | .ok store2 w2 _ => (.ok (), store2, run_commit_cbs w2 stmts)

theorem rollback_cbs_preserves_none {σ : Type} :
    ∀ (cr : List (StmtC σ)) (w : World) (a : Nat) (ent : EntityState),
      alget w a = some ent → ent.entityId = Option.none →
      ∃ ent2, alget (rollback_cbs w cr) a = some ent2 ∧
        ent2.entityId = Option.none := by
  intro cr
  induction cr with
  | nil => intro w a ent h1 h2; exact ⟨ent, h1, h2⟩
  | cons st rest ih =>
    intro w a ent h1 h2
    cases hr : st.rowidEnt with
    | none =>
      simp only [rollback_cbs, hr]
      exact ih w a ent h1 h2
    | some b =>
      simp only [rollback_cbs, hr]
      by_cases hb : b = a
      · subst hb
        refine ih _ b { ent with entityId := Option.none } ?_ rfl
        rw [set_entity_id, alget_wmodify, if_pos rfl, h1, Option.map_some']
      · refine ih _ a ent ?_ h2
        rw [set_entity_id, alget_wmodify, if_neg hb]
        exact h1

theorem rollback_cbs_resets {σ : Type} :
    ∀ (cr : List (StmtC σ)) (w : World) (a : Nat),
      (alget w a).isSome = true →
      (∃ st ∈ cr, st.rowidEnt = some a) →
      ∃ ent, alget (rollback_cbs w cr) a = some ent ∧
        ent.entityId = Option.none := by
  intro cr
  induction cr with
  | nil =>
    intro w a _ hmem
    obtain ⟨st, hst, _⟩ := hmem
    cases hst
  | cons st0 rest ih =>
    intro w a hlive hmem
    obtain ⟨st, hst, hrid⟩ := hmem
    rcases List.mem_cons.mp hst with heq | hr
    · subst heq
      simp only [rollback_cbs, hrid]
      cases he : alget w a with
      | none => rw [he] at hlive; cases hlive
      | some ent =>
        refine rollback_cbs_preserves_none rest _ a
          { ent with entityId := Option.none } ?_ rfl
        rw [set_entity_id, alget_wmodify, if_pos rfl, he, Option.map_some']
    · cases hr0 : st0.rowidEnt with
      | none =>
        simp only [rollback_cbs, hr0]
        exact ih w a hlive ⟨st, hr, hrid⟩
      | some b =>
        simp only [rollback_cbs, hr0]
        refine ih _ a ?_ ⟨st, hr, hrid⟩
        rw [set_entity_id, isSome_alget_wmodify]
        exact hlive

theorem execLoop_dom_mono {σ : Type} :
    ∀ (stmts : List (StmtC σ)) (store : σ) (w : World) (cr : List (StmtC σ))
      (e : PyErr) (sf : σ) (wf : World) (crf : List (StmtC σ)),
      execLoop store w cr stmts = .failed e sf wf crf →
      ∀ a, (alget w a).isSome = true → (alget wf a).isSome = true := by
  intro stmts
  induction stmts with
  | nil => intro store w cr e sf wf crf h; cases h
  | cons st rest ih =>
    intro store w cr e sf wf crf h a hlive
    simp only [execLoop] at h
    cases hex : st.exec store with
    | error e2 =>
      rw [hex] at h
      cases h
      exact hlive
    | ok store2 =>
      rw [hex] at h
      cases hr : st.rowidEnt with
      | none =>
        rw [hr] at h
        exact ih store2 w cr e sf wf crf h a hlive
      | some b =>
        rw [hr] at h
        refine ih store2 _ _ e sf wf crf h a ?_
        rw [set_entity_id, isSome_alget_wmodify]
        exact hlive

theorem execLoop_creations_from {σ : Type} :
    ∀ (stmts : List (StmtC σ)) (store : σ) (w : World) (cr : List (StmtC σ))
      (e : PyErr) (sf : σ) (wf : World) (crf : List (StmtC σ)),
      execLoop store w cr stmts = .failed e sf wf crf →
      ∀ st ∈ crf, st ∈ cr ∨ st ∈ stmts := by
  intro stmts
  induction stmts with
  | nil =>
    intro store w cr e sf wf crf h
    cases h
  | cons st0 rest ih =>
    intro store w cr e sf wf crf h st hst
    simp only [execLoop] at h
    cases hex : st0.exec store with
    | error e2 =>
      rw [hex] at h
      cases h
      exact Or.inl hst
    | ok store2 =>
      rw [hex] at h
      cases hr : st0.rowidEnt with
      | none =>
        rw [hr] at h
        rcases ih store2 w cr e sf wf crf h st hst with h2 | h2
        · exact Or.inl h2
        · exact Or.inr (List.mem_cons_of_mem _ h2)
      | some b =>
        rw [hr] at h
        rcases ih store2 _ _ e sf wf crf h st hst with h2 | h2
        · rcases List.mem_append.mp h2 with h3 | h3
          · exact Or.inl h3
          · rcases List.mem_singleton.mp h3 with h4
            subst h4
            exact Or.inr (List.mem_cons_self _ _)
        · exact Or.inr (List.mem_cons_of_mem _ h2)

/-- C1: if executing any statement of the batch raises, `Database.commit`
re-raises the original exception, the backing store is rolled back to its
transaction-start state (no effect of any statement of the batch remains
visible in storage), and every entity whose rowid callback already fired
during the batch is re-invoked with `None`, leaving its `entity_id`
unset.  The hypothesis requires every rowid-callback entity of the batch
to be a live object of the world. -/
theorem commit_rollback_on_failure {σ : Type}
    (store : σ) (w : World) (stmts : List (StmtC σ))
    (e : PyErr) (sf : σ) (wf : World) (cr : List (StmtC σ))
    (hfail : execLoop store w [] stmts = .failed e sf wf cr)
    (hdom : ∀ st ∈ stmts, ∀ a, st.rowidEnt = some a →
      (alget w a).isSome = true) :
    (db_commit store w stmts).1 = .error e ∧
    (db_commit store w stmts).2.1 = store ∧
    (∀ st ∈ cr, ∀ a, st.rowidEnt = some a →
      ∃ ent, alget (db_commit store w stmts).2.2 a = some ent ∧
        ent.entityId = Option.none) := by
  have hdb : db_commit store w stmts = (.error e, store, rollback_cbs wf cr) := by
    simp only [db_commit, hfail]
  refine ⟨by rw [hdb], by rw [hdb], ?_⟩
  intro st hst a hrid
  rw [hdb]
  refine rollback_cbs_resets cr wf a ?_ ⟨st, hst, hrid⟩
  have hmem : st ∈ stmts := by
    rcases execLoop_creations_from stmts store w [] e sf wf cr hfail st hst
      with h2 | h2
    · cases h2
    · exact h2
  exact execLoop_dom_mono stmts store w [] e sf wf cr hfail a
    (hdom st hmem a hrid)

/-- First statement of the C1 witness batch: an insert that succeeds
against the store (modelled as a statement counter) and assigns id 5 to
the pending Division at address 20. -/
def stC1a : StmtC Nat :=
  { exec := fun s => .ok (s + 1), lastrowid := .int 5,
    rowidEnt := some 20, commitCb := Option.none }

/-- Second statement of the C1 witness batch: its execution raises a
uniqueness-constraint error. -/
def stC1b : StmtC Nat :=
  { exec := fun _ => .error (.valueError "UNIQUE constraint failed"),
    lastrowid := .int 0, rowidEnt := some 21, commitCb := Option.none }

/-- Witness for C1: a two-statement batch over the pending world fails on
the second statement; commit re-raises, returns the untouched store, and
the Division — whose id the first statement had already set to 5 — is back
to no id. -/
theorem commit_rollback_on_failure_witness :
    (db_commit (0 : Nat) wPend [stC1a, stC1b]).1 =
      .error (.valueError "UNIQUE constraint failed") ∧
    (db_commit (0 : Nat) wPend [stC1a, stC1b]).2.1 = 0 ∧
    (∃ ent, alget (db_commit (0 : Nat) wPend [stC1a, stC1b]).2.2 20 = some ent ∧
      ent.entityId = Option.none) := by
  have h := commit_rollback_on_failure (0 : Nat) wPend [stC1a, stC1b]
    (.valueError "UNIQUE constraint failed") 1
    (set_entity_id wPend 20 (some (.int 5))) [stC1a] rfl ?hdom
  case hdom =>
    intro st hst a ha
    rcases List.mem_cons.mp hst with h1 | h1
    · subst h1
      cases ha
      rfl
    · rcases List.mem_cons.mp h1 with h2 | h2
      · subst h2
        cases ha
        rfl
      · cases h2
  exact ⟨h.1, h.2.1, h.2.2 stC1a (List.mem_cons_self _ _) 20 rfl⟩

/-- C9: when every statement of the batch executes successfully,
`Database.commit` returns normally — `.ok ()` with the committed store —
and the final in-memory state is the fold of the commit-notification
callbacks over all statements; a callback that raises is swallowed (the
loop result for that statement is the unchanged state) and the remaining
statements' callbacks still run on it. -/
theorem commit_callback_errors_swallowed {σ : Type}
    (store : σ) (w : World) (stmts : List (StmtC σ))
    (store2 : σ) (w2 : World) (cr : List (StmtC σ))
    (hok : execLoop store w [] stmts = .ok store2 w2 cr) :
    db_commit store w stmts = (.ok (), store2, run_commit_cbs w2 stmts) ∧
    (∀ (w3 : World) (st : StmtC σ) (rest : List (StmtC σ))
      (cb : World → Except PyErr World) (err : PyErr),
      st.commitCb = some cb → cb w3 = .error err →
      run_commit_cbs w3 (st :: rest) = run_commit_cbs w3 rest) := by
  constructor
  · simp only [db_commit, hok]
  · intro w3 st rest cb err hcb herr
    simp only [run_commit_cbs, hcb, herr]

/-- First statement of the C9 witness batch: its commit-notification
callback raises. -/
def stC9a : StmtC Nat :=
  { exec := fun s => .ok s, lastrowid := .int 0, rowidEnt := Option.none,
    commitCb := some (fun _ => .error (.valueError "commit callback failed")) }

/-- Second statement of the C9 witness batch: its commit-notification
callback marks the Stage at address 21 committed (clears its staged
fields). -/
def stC9b : StmtC Nat :=
  { exec := fun s => .ok s, lastrowid := .int 0, rowidEnt := Option.none,
    commitCb := some (fun w =>
      .ok (wmodify w 21 (fun e => { e with changedFields := [] }))) }

/-- Witness for C9: with a first callback that raises and a second that
succeeds, commit still returns `.ok ()` and the second callback's effect
is applied. -/
theorem commit_callback_errors_swallowed_witness :
    db_commit (0 : Nat) wPend [stC9a, stC9b] =
      (.ok (), 0, run_commit_cbs wPend [stC9a, stC9b]) ∧
    run_commit_cbs wPend [stC9a, stC9b] =
      [(20, divPending), (21, { stagePendingFk with changedFields := [] })] := by
  refine ⟨(commit_callback_errors_swallowed (0 : Nat) wPend [stC9a, stC9b]
    0 wPend [] rfl).1, rfl⟩

end FieldTracker
